import Mathlib

/-!
# Verification of the BBBDriver fleet-configuration core (`BBBConfig.cpp`)

This file is a shallow embedding of the configuration engine of the
BBBDriver repository (`BBBDriverConsole/BBBConfig.cpp`): the INI-style
text parser, the typed configuration model, the load/save orchestration
and the fleet reconciler (`BBBConfig::EnsureDetectedCameras`).

Modelling conventions:
* C++ `std::string` values are modelled as `List Char` (`Str`); trimming,
  lower-casing and comparisons are spelled out on characters, mirroring
  the `Trim` / `ToLower` helpers of the source.
* `float` / `double` fields are modelled as exact rationals (`ℚ`); the
  tolerance comparisons `NearlyEqualF` / `ControlEqual` are translated
  with the literal `1e-6` rendered as `1/1000000`.
* the C++ output parameters (`bool& outChanged`, `BBBAppConfig& out`)
  become explicit result pairs / `Option` results;
* file I/O is dropped: the parser consumes a list of lines, the loader
  consumes the parsed key-value map, and the saver's observable effect is
  split into its in-memory pad/truncate (`savePrepare`) and the sequence
  of sections it emits (`saveSections`).
-/

/-- C++ `std::string`, modelled as a list of characters. -/
abbrev Str := List Char

/-- Shorthand turning a Lean string literal into the `Str` model. -/
def str (s : String) : Str := s.data

/-- The character class of C `isspace` (default locale):
space, tab, newline, vertical tab, form feed, carriage return. -/
def isSpaceC (c : Char) : Bool :=
  c = ' ' || c = '\t' || c = '\n' || c = '\x0b' || c = '\x0c' || c = '\r'

/-- `Trim` (BBBConfig.cpp): drop leading and trailing `isspace` characters. -/
def trimS (s : Str) : Str :=
  ((s.dropWhile isSpaceC).reverse.dropWhile isSpaceC).reverse

/-- ASCII `std::tolower` on one character. -/
def toLowerC (c : Char) : Char :=
  if 'A' ≤ c ∧ c ≤ 'Z' then Char.ofNat (c.toNat + 32) else c

/-- `ToLower` (BBBConfig.cpp): lower-case every character. -/
def toLowerS (s : Str) : Str := s.map toLowerC

/-- Decimal rendering of a natural number (for `std::to_string`). -/
def natStr (n : Nat) : Str := (Nat.repr n).data

/-- `DefaultOrientForIndex` (BBBConfig.cpp): slot 0 gets `"izq"`,
slot 1 gets `"der"`, any other slot gets `"cenital"`. -/
def defaultOrientForIndex (index0Based : Nat) : Str :=
  if index0Based = 0 then str "izq"
  else if index0Based = 1 then str "der"
  else str "cenital"

/-- `CanonicalOrient` (BBBConfig.cpp): trim, lower-case, then map the
recognized synonyms onto the canonical tokens `izq` / `der` / `cenital`;
unrecognized strings are returned as trimmed+lower-cased. -/
def canonicalOrient (s0 : Str) : Str :=
  let s := toLowerS (trimS s0)
  if s = str "izq" ∨ s = str "izquierda" ∨ s = str "left" then str "izq"
  else if s = str "der" ∨ s = str "derecha" ∨ s = str "right" then str "der"
  else if s = str "cen" ∨ s = str "cenital" ∨ s = str "top" then str "cenital"
  else s

/-- The literal `1e-6` of the source tolerances, as an exact rational. -/
def epsTol : ℚ := 1 / 1000000

/-- `NearlyEqualF` (BBBConfig.cpp): relative-tolerance float equality,
`|a-b| ≤ eps * max(1, |a|, |b|)` with `eps = 1e-6`. -/
def nearlyEqualF (a b : ℚ) : Bool :=
  decide (|a - b| ≤ epsTol * max 1 (max |a| |b|))

/-- `BBBCameraMount` (BBBConfig.h, via its uses in BBBConfig.cpp). -/
structure BBBCameraMount where
  alturaCamaraM : ℚ
  distHorizArc0M : ℚ
  pitchDeg : ℚ
deriving DecidableEq

/-- `BBBControl` (BBBConfig.h, via its uses in BBBConfig.cpp). -/
structure BBBControl where
  exposureUs : ℚ
  gainDb : ℚ
deriving DecidableEq

/-- `BBBParams` (BBBConfig.h): the ~31 processing fields read/written and
compared by BBBConfig.cpp (`LoadParams`/`SaveParams`/`ParamsEqual`). -/
structure BBBParams where
  minRangeM : ℚ
  maxRangeM : ℚ
  roiMinXPct : Int
  roiMaxXPct : Int
  roiMinYPct : Int
  roiMaxYPct : Int
  decimationFactor : Int
  applySpeckleFilter : Bool
  maxSpeckleSize : Int
  speckleThreshold : Int
  applyMedian3x3 : Bool
  voxelLeafM : ℚ
  outlierRadiusM : ℚ
  outlierMinNeighbors : Int
  keepLargestCluster : Bool
  enableGroundPlaneFilter : Bool
  groundBandPct : ℚ
  groundRansacThrM : ℚ
  groundRansacIters : Int
  groundCutMarginM : ℚ
  enableFrontDepthClamp : Bool
  frontFacePercentile : ℚ
  frontDepthBandM : ℚ
  faceSlabM : ℚ
  dimPercentileLow : ℚ
  dimPercentileHigh : ℚ
  colorMode : Int
  plyBinary : Bool
  hardMaxZM : ℚ
  groundMinHeightM : ℚ
  bultoFacePercentile : ℚ
deriving DecidableEq

/-- `ControlEqual` (BBBConfig.cpp): plain absolute tolerance `1e-6` on the
two control fields (note: absolute, unlike `NearlyEqualF`). -/
def controlEqual (a b : BBBControl) : Bool :=
  decide (|a.exposureUs - b.exposureUs| ≤ epsTol) &&
  decide (|a.gainDb - b.gainDb| ≤ epsTol)

/-- `ParamsEqual` (BBBConfig.cpp): field-by-field comparison, with
`NearlyEqualF` on every float field and exact equality on ints/bools. -/
def paramsEqual (a b : BBBParams) : Bool :=
  nearlyEqualF a.minRangeM b.minRangeM &&
  nearlyEqualF a.maxRangeM b.maxRangeM &&
  decide (a.roiMinXPct = b.roiMinXPct) &&
  decide (a.roiMaxXPct = b.roiMaxXPct) &&
  decide (a.roiMinYPct = b.roiMinYPct) &&
  decide (a.roiMaxYPct = b.roiMaxYPct) &&
  decide (a.decimationFactor = b.decimationFactor) &&
  decide (a.applySpeckleFilter = b.applySpeckleFilter) &&
  decide (a.maxSpeckleSize = b.maxSpeckleSize) &&
  decide (a.speckleThreshold = b.speckleThreshold) &&
  decide (a.applyMedian3x3 = b.applyMedian3x3) &&
  nearlyEqualF a.voxelLeafM b.voxelLeafM &&
  nearlyEqualF a.outlierRadiusM b.outlierRadiusM &&
  decide (a.outlierMinNeighbors = b.outlierMinNeighbors) &&
  decide (a.keepLargestCluster = b.keepLargestCluster) &&
  decide (a.enableGroundPlaneFilter = b.enableGroundPlaneFilter) &&
  nearlyEqualF a.groundBandPct b.groundBandPct &&
  nearlyEqualF a.groundRansacThrM b.groundRansacThrM &&
  decide (a.groundRansacIters = b.groundRansacIters) &&
  nearlyEqualF a.groundCutMarginM b.groundCutMarginM &&
  decide (a.enableFrontDepthClamp = b.enableFrontDepthClamp) &&
  nearlyEqualF a.frontFacePercentile b.frontFacePercentile &&
  nearlyEqualF a.frontDepthBandM b.frontDepthBandM &&
  nearlyEqualF a.faceSlabM b.faceSlabM &&
  nearlyEqualF a.dimPercentileLow b.dimPercentileLow &&
  nearlyEqualF a.dimPercentileHigh b.dimPercentileHigh &&
  decide (a.colorMode = b.colorMode) &&
  decide (a.plyBinary = b.plyBinary) &&
  nearlyEqualF a.hardMaxZM b.hardMaxZM &&
  nearlyEqualF a.groundMinHeightM b.groundMinHeightM &&
  nearlyEqualF a.bultoFacePercentile b.bultoFacePercentile

/-- Output paths block of `BBBAppConfig` (the `general.*` path keys). -/
structure BBBPaths where
  outputDir : Str
  dirPNG : Str
  dirPGM : Str
  dirPLY : Str
  captureTimeoutMs : Nat
deriving DecidableEq

/-- `CameraConfig` (BBBConfig.h, via its uses in BBBConfig.cpp). -/
structure CameraConfig where
  enabled : Bool
  serial : Str
  name : Str
  orient : Str
  mount : BBBCameraMount
  params : BBBParams
  control : BBBControl
deriving DecidableEq

/-- Modelled from the spec: `BBBConfig.h` (absent from the sources)
declares `CameraConfig`'s default member initializers.  Per §4.4's
"default-enabled placeholder" wording the `enabled` default is `true`;
the `std::string` members default-construct empty. -/
def defaultCameraEnabled : Bool := true

/-- `BBBAppConfig` (BBBConfig.h, via its uses in BBBConfig.cpp). -/
structure BBBAppConfig where
  paths : BBBPaths
  maxCameras : Int
  autoAddDetectedCameras : Bool
  autoNameFromSerial : Bool
  namePrefix : Str
  defaultMount : BBBCameraMount
  defaultParams : BBBParams
  defaultControl : BBBControl
  cameras : List CameraConfig
deriving DecidableEq

/-- `BBBConfig::MakeAutoName`: `namePrefix + serial` for a non-empty
serial, `namePrefix + "UNASSIGNED" + index1Based` otherwise. -/
def makeAutoName (cfg : BBBAppConfig) (serial : Str) (index1Based : Nat) : Str :=
  if serial ≠ [] then cfg.namePrefix ++ serial
  else cfg.namePrefix ++ str "UNASSIGNED" ++ natStr index1Based

/-- The `maxCameras` clamp to `[1,3]` applied (in this order) by
`LoadIni`, `SaveIni` and `EnsureDetectedCameras`. -/
def clampMax (m : Int) : Int :=
  let m1 := if m < 1 then 1 else m
  if m1 > 3 then 3 else m1

example : trimS (str "  hola\t ") = str "hola" := by decide
example : toLowerS (str "TrUe") = str "true" := by decide
example : canonicalOrient (str " LEFT ") = str "izq" := by decide
example : canonicalOrient (str "weird") = str "weird" := by decide
example : makeAutoName ⟨⟨[], [], [], [], 0⟩, 1, true, true, str "p", ⟨0,0,0⟩,
    ⟨0,0,0,0,0,0,0,false,0,0,false,0,0,0,false,false,0,0,0,0,false,0,0,0,0,0,0,false,0,0,0⟩,
    ⟨0,0⟩, []⟩ [] 2 = str "pUNASSIGNED2" := by decide

/-- Indexed map over a list, carrying the absolute position of each
element (position of the head is the first argument). -/
def mapFrom (f : Nat → α → α) : Nat → List α → List α
  | _, [] => []
  | i, a :: l => f i a :: mapFrom f (i + 1) l

/-- Indexed `any` over a list, carrying absolute positions. -/
def anyFrom (p : Nat → α → Bool) : Nat → List α → Bool
  | _, [] => false
  | i, a :: l => p i a || anyFrom p (i + 1) l

/-- First position (counting from the first argument) satisfying `p`;
models the index scan of the fill loop in `EnsureDetectedCameras`. -/
def findIdxFrom (p : α → Bool) : Nat → List α → Option Nat
  | _, [] => none
  | i, a :: l => if p a then some i else findIdxFrom p (i + 1) l

/-- The cleared record produced by the intra-config dedup pass of
`EnsureDetectedCameras` (lines 510-516): serial cleared, name re-derived,
orientation defaulted if empty, `enabled` forced on. -/
def dedupClear (cfg : BBBAppConfig) (j : Nat) (c : CameraConfig) : CameraConfig :=
  { c with
    serial := []
    name := makeAutoName cfg [] (j + 1)
    orient := if c.orient = [] then defaultOrientForIndex j else c.orient
    enabled := true }

/-- The intra-config dedup pass of `EnsureDetectedCameras` (lines
503-519): for each slot `i` in ascending order with a non-empty serial,
clear every later slot carrying the same serial.  `i` is the absolute
index of the head of the list being processed.  Returns the updated
sequence and whether anything was cleared.  The first argument is fuel
(the recursive call is on a re-mapped list of the same length, so fuel
equal to the list length always suffices). -/
def dedupPass (cfg : BBBAppConfig) : Nat → Nat → List CameraConfig → List CameraConfig × Bool
  | 0, _, cams => (cams, false)
  | _ + 1, _, [] => ([], false)
  | fuel + 1, i, c :: rest =>
    if c.serial = [] then
      let r := dedupPass cfg fuel (i + 1) rest
      (c :: r.1, r.2)
    else
      let hit := anyFrom (fun _ cj => decide (cj.serial = c.serial) && !(cj.serial.isEmpty)) (i + 1) rest
      let rest1 := mapFrom
        (fun j cj => if cj.serial = c.serial ∧ cj.serial ≠ [] then dedupClear cfg j cj else cj)
        (i + 1) rest
      let r := dedupPass cfg fuel (i + 1) rest1
      (c :: r.1, hit || r.2)

/-- The unique-detected list of `EnsureDetectedCameras` (lines 521-530):
drop empty strings, keep first occurrences in order. -/
def uniqueNonEmpty : List Str → List Str → List Str
  | [], acc => acc
  | s :: rest, acc =>
    if s = [] ∨ s ∈ acc then uniqueNonEmpty rest acc
    else uniqueNonEmpty rest (acc ++ [s])

/-- `HasSerial` (lambda inside `EnsureDetectedCameras`, lines 532-538):
some slot holds exactly this non-empty serial. -/
def hasSerial (cams : List CameraConfig) (s : Str) : Bool :=
  cams.any (fun c => !(c.serial.isEmpty) && decide (c.serial = s))

/-- The slot update performed when a detected serial is placed into an
existing empty-serial slot (lines 546-563). -/
def fillSlot (cfg : BBBAppConfig) (s : Str) (i : Nat) (c : CameraConfig) : CameraConfig :=
  let orient0 := if c.orient = [] then defaultOrientForIndex i else c.orient
  { c with
    serial := s
    orient := canonicalOrient orient0
    name := if cfg.autoNameFromSerial then makeAutoName cfg s (i + 1) else c.name }

/-- The freshly appended record for a detected serial that found no empty
slot while the fleet is still below `maxCameras` (lines 571-581). -/
def appendCam (cfg : BBBAppConfig) (s : Str) (n : Nat) : CameraConfig :=
  { enabled := true
    serial := s
    orient := defaultOrientForIndex n
    mount := cfg.defaultMount
    params := cfg.defaultParams
    control := cfg.defaultControl
    name := if cfg.autoNameFromSerial then makeAutoName cfg s (n + 1) else makeAutoName cfg [] (n + 1) }

/-- One iteration of the placement loop of `EnsureDetectedCameras`
(lines 541-582) for a single unique detected serial. -/
def fillStep (cfg : BBBAppConfig) (maxC : Nat) (st : List CameraConfig × Bool) (s : Str) :
    List CameraConfig × Bool :=
  if hasSerial st.1 s then st
  else
    match findIdxFrom (fun c => c.serial.isEmpty) 0 (st.1.take maxC) with
    | some i => (mapFrom (fun j c => if j = i then fillSlot cfg s i c else c) 0 st.1, true)
    | none =>
      if st.1.length < maxC then (st.1 ++ [appendCam cfg s st.1.length], true)
      else st

/-- The fully-defaulted empty-serial record pushed by the padding loop of
`EnsureDetectedCameras` (lines 585-596). -/
def padCam (cfg : BBBAppConfig) (n : Nat) : CameraConfig :=
  { enabled := true
    serial := []
    orient := defaultOrientForIndex n
    mount := cfg.defaultMount
    params := cfg.defaultParams
    control := cfg.defaultControl
    name := makeAutoName cfg [] (n + 1) }

/-- The `while (size < maxCameras) push` padding loop (lines 585-596),
written with explicit fuel; fuel `maxC` always suffices because each
iteration grows the sequence by one. -/
def padLoop (cfg : BBBAppConfig) (maxC : Nat) :
    Nat → List CameraConfig × Bool → List CameraConfig × Bool
  | 0, st => st
  | fuel + 1, st =>
    if st.1.length < maxC then padLoop cfg maxC fuel (st.1 ++ [padCam cfg st.1.length], true)
    else st

/-- `BBBConfig::EnsureDetectedCameras` (lines 492-604), as a pure
transform `config × detected ↦ config × changed`.  Steps in source
order: early return when `autoAddDetectedCameras` is off, clamp
`maxCameras`, intra-config dedup, unique detected list, placement loop,
pad, truncate. -/
def ensureDetectedCameras (cfg : BBBAppConfig) (detected : List Str) :
    BBBAppConfig × Bool :=
  if cfg.autoAddDetectedCameras = false then (cfg, false)
  else
    let m := clampMax cfg.maxCameras
    let maxC := m.toNat
    let cfg1 := { cfg with maxCameras := m }
    let st1 := dedupPass cfg1 cfg1.cameras.length 0 cfg1.cameras
    let st2 := (uniqueNonEmpty detected []).foldl (fillStep cfg1 maxC) st1
    let st3 := padLoop cfg1 maxC maxC st2
    let st4 := if maxC < st3.1.length then (st3.1.take maxC, true) else st3
    ({ cfg1 with cameras := st4.1 }, st4.2)

/-- The record pushed by the save-side padding loop of `SaveIni`
(lines 414-424). -/
def savePadCam (cfg : BBBAppConfig) (n : Nat) : CameraConfig :=
  { enabled := true
    serial := []
    mount := cfg.defaultMount
    params := cfg.defaultParams
    control := cfg.defaultControl
    orient := defaultOrientForIndex n
    name := makeAutoName cfg [] (n + 1) }

/-- The `for (i < need) push` save-side padding loop of `SaveIni`
(lines 411-425), iterated `need` times. -/
def savePadN (cfg : BBBAppConfig) : Nat → List CameraConfig → List CameraConfig
  | 0, cams => cams
  | n + 1, cams => savePadN cfg n (cams ++ [savePadCam cfg cams.length])

/-- The in-memory normalization `SaveIni` performs on its local copy of
the config before writing (lines 406-427): clamp `maxCameras`, pad with
defaulted records, truncate from the tail. -/
def savePrepare (cfgIn : BBBAppConfig) : BBBAppConfig :=
  let m := clampMax cfgIn.maxCameras
  let cfg := { cfgIn with maxCameras := m }
  let maxC := m.toNat
  let cams1 :=
    if cfg.cameras.length < maxC then savePadN cfg (maxC - cfg.cameras.length) cfg.cameras
    else cfg.cameras
  let cams2 := if maxC < cams1.length then cams1.take maxC else cams1
  { cfg with cameras := cams2 }

/-- The section headers `SaveIni` can emit, as structured tags;
`sectionName` renders each tag to the exact header text written. -/
inductive SectionTag where
  | general : SectionTag
  | defaults : SectionTag
  | defaultsParams : SectionTag
  | defaultsControl : SectionTag
  | camera : Nat → SectionTag
  | cameraParams : Nat → SectionTag
  | cameraControl : Nat → SectionTag
deriving DecidableEq

/-- Rendering of a section tag to the header text `SaveIni` writes. -/
def sectionName : SectionTag → Str
  | .general => str "General"
  | .defaults => str "Defaults"
  | .defaultsParams => str "Defaults.Params"
  | .defaultsControl => str "Defaults.Control"
  | .camera i => str "Camera." ++ natStr i
  | .cameraParams i => str "Camera." ++ natStr i ++ str ".Params"
  | .cameraControl i => str "Camera." ++ natStr i ++ str ".Control"

/-- The per-camera section headers of `SaveIni`'s device loop (lines
456-487): identity+mount always, params and control only when they
differ from the fleet defaults under the tolerance equalities. -/
def camSectionsFrom (dp : BBBParams) (dc : BBBControl) :
    Nat → List CameraConfig → List SectionTag
  | _, [] => []
  | i, c :: rest =>
    [SectionTag.camera i]
      ++ (if paramsEqual c.params dp then [] else [SectionTag.cameraParams i])
      ++ (if controlEqual c.control dc then [] else [SectionTag.cameraControl i])
      ++ camSectionsFrom dp dc (i + 1) rest

/-- The full sequence of section headers `SaveIni` emits (lines
429-487), computed over the padded/truncated copy of the config. -/
def saveSections (cfgIn : BBBAppConfig) : List SectionTag :=
  let cfg := savePrepare cfgIn
  [SectionTag.general, SectionTag.defaults, SectionTag.defaultsParams, SectionTag.defaultsControl]
    ++ camSectionsFrom cfg.defaultParams cfg.defaultControl 0 cfg.cameras

/-- The flat key-value map built by `ParseIni`, keyed by the dotted
lower-cased key.  `std::unordered_map` lookup is modelled functionally. -/
def KvMap := Str → Option Str

/-- The empty key-value map. -/
def emptyKv : KvMap := fun _ => none

/-- `kv[full] = val`: map overwrite. -/
def kvSet (m : KvMap) (k v : Str) : KvMap := fun q => if q = k then some v else m q

/-- Parser state of `ParseIni`: the active (lower-cased) section name and
the accumulated key-value map. -/
structure ParseState where
  sect : Str
  kv : KvMap

/-- Comment stripping and trimming applied to every line by `ParseIni`
(lines 98-103): cut at the first `;`, then at the first `#`, then trim. -/
def strippedLine (line : Str) : Str :=
  trimS ((line.takeWhile (fun c => c ≠ ';')).takeWhile (fun c => c ≠ '#'))

/-- The `[section]` header test of `ParseIni` (line 106): length at
least 3, first character `[`, last character `]`. -/
def isHeaderLine (l : Str) : Prop :=
  3 ≤ l.length ∧ l.head? = some '[' ∧ l.getLast? = some ']'

instance (l : Str) : Decidable (isHeaderLine l) := by
  unfold isHeaderLine
  infer_instance

/-- The dotted full key stored by `ParseIni` for a key/value line whose
`=` sits at position `eq` (lines 116-119). -/
def fullKeyAt (sect l : Str) (eq : Nat) : Str :=
  let key := toLowerS (trimS (l.take eq))
  if sect = [] then key else sect ++ str "." ++ key

/-- One iteration of the `ParseIni` line loop (BBBConfig.cpp lines
96-121): strip `;` and `#` comments, trim; skip blank lines; a
`[section]` line replaces the active section; a line with `=` stores
`section.key ↦ value`; any other line is skipped. -/
def processLine (st : ParseState) (line : Str) : ParseState :=
  let l := strippedLine line
  if l = [] then st
  else if isHeaderLine l then
    { st with sect := toLowerS (trimS ((l.drop 1).dropLast)) }
  else
    match findIdxFrom (fun c => c = '=') 0 l with
    | none => st
    | some eq =>
      let val := trimS (l.drop (eq + 1))
      { st with kv := kvSet st.kv (fullKeyAt st.sect l eq) val }

/-- `ParseIni` over an already-split list of lines.  The only failure of
the C++ function is the file not opening; the line loop itself is total
and is modelled as such. -/
def parseLines (lines : List Str) : ParseState :=
  lines.foldl processLine ⟨[], emptyKv⟩

/-- `GetStr`-style lookup: the query key is lower-cased (stored keys
already are). -/
def getStrM (kv : KvMap) (k : Str) : Option Str := kv (toLowerS k)

/-- `HasKey` (BBBConfig.cpp lines 126-129). -/
def hasKeyM (kv : KvMap) (k : Str) : Bool := (getStrM kv k).isSome

/-- `GetStr` used as "overwrite `out` only when the key is present". -/
def getStrD (kv : KvMap) (k : Str) (cur : Str) : Str := (getStrM kv k).getD cur

/-- Accumulate decimal digits (the core of `std::stoi`/`std::stod`). -/
def digitsToNat : List Char → Nat → Nat
  | [], acc => acc
  | c :: l, acc => digitsToNat l (acc * 10 + (c.toNat - '0'.toNat))

/-- `std::stoi` on the stored text: optional whitespace and sign, then at
least one digit; trailing garbage is ignored.  `none` models the
`std::invalid_argument` exception that aborts the whole load. -/
def parseIntM (s : Str) : Option Int :=
  let t := s.dropWhile isSpaceC
  let p : Int × Str :=
    match t with
    | '-' :: r => (-1, r)
    | '+' :: r => (1, r)
    | _ => (1, t)
  let ds := p.2.takeWhile Char.isDigit
  if ds = [] then none else some (p.1 * (digitsToNat ds 0 : Nat))

/-- Exponent part of a float literal: optional sign then digits. -/
def parseExpM (t : Str) : Option Int :=
  let p : Int × Str :=
    match t with
    | '-' :: r => (-1, r)
    | '+' :: r => (1, r)
    | _ => (1, t)
  let ds := p.2.takeWhile Char.isDigit
  if ds = [] then none else some (p.1 * (digitsToNat ds 0 : Nat))

/-- `10 ^ n` as a rational, via `Nat` power (kernel-reducible). -/
def pow10 (n : Nat) : ℚ := ((10 ^ n : Nat) : Int)

/-- `10 ^ e` for a signed exponent. -/
def pow10Z (e : Int) : ℚ := if e < 0 then 1 / pow10 e.natAbs else pow10 e.natAbs

/-- Modelled from the spec (§4.1): numeric parsing of a float field
fails the whole load when the stored text is not a valid number.  This
models the decimal forms accepted by `std::stof`/`std::stod` (sign,
digits with optional fraction, optional exponent; a malformed exponent
is ignored per longest-valid-prefix parsing); the exotic hex/inf/nan
forms are not modelled. -/
def parseFloatM (s : Str) : Option ℚ :=
  let t := s.dropWhile isSpaceC
  let p : ℚ × Str :=
    match t with
    | '-' :: r => (-1, r)
    | '+' :: r => (1, r)
    | _ => (1, t)
  let ip := p.2.takeWhile Char.isDigit
  let t3 := p.2.drop ip.length
  let fp : Str :=
    match t3 with
    | '.' :: r => r.takeWhile Char.isDigit
    | _ => []
  let t4 : Str :=
    match t3 with
    | '.' :: r => r.drop (r.takeWhile Char.isDigit).length
    | _ => t3
  if ip = [] ∧ fp = [] then none
  else
    let mant : ℚ := ((digitsToNat (ip ++ fp) 0 : Nat) : Int) / pow10 fp.length
    let e : Int :=
      match t4 with
      | c :: r => if c = 'e' ∨ c = 'E' then (parseExpM r).getD 0 else 0
      | [] => 0
    some (p.1 * mant * pow10Z e)

/-- `GetI` (lines 139-145): keep `cur` when the key is absent, else
`std::stoi` the stored text (failure aborts the load). -/
def getIM (kv : KvMap) (k : Str) (cur : Int) : Option Int :=
  match getStrM kv k with
  | none => some cur
  | some s => parseIntM s

/-- `GetU64` (lines 147-155): `std::stoll`, negative clamped to 0. -/
def getU64M (kv : KvMap) (k : Str) (cur : Nat) : Option Nat :=
  match getStrM kv k with
  | none => some cur
  | some s => (parseIntM s).map (fun v => (if v < 0 then 0 else v).toNat)

/-- `GetF` (lines 157-163): `std::stof` on the stored text. -/
def getFM (kv : KvMap) (k : Str) (cur : ℚ) : Option ℚ :=
  match getStrM kv k with
  | none => some cur
  | some s => parseFloatM s

/-- `GetD` (lines 165-171): `std::stod` on the stored text. -/
def getDM (kv : KvMap) (k : Str) (cur : ℚ) : Option ℚ :=
  match getStrM kv k with
  | none => some cur
  | some s => parseFloatM s

/-- `GetB` (lines 173-180): trim, lower-case, then compare against the
four true-words; anything else is `false`.  Key absent keeps `cur`. -/
def parseBoolV (s : Str) : Bool :=
  let t := toLowerS (trimS s)
  t = str "1" || t = str "true" || t = str "yes" || t = str "on"

/-- `GetB`'s effect on its output parameter. -/
def getBM (kv : KvMap) (k : Str) (cur : Bool) : Option Bool :=
  match getStrM kv k with
  | none => some cur
  | some s => some (parseBoolV s)

example : (parseLines [str "[Sec]", str "a = 1 ; c", str "garbage", str "A=2"]).kv (str "sec.a")
    = some (str "2") := by decide
example : parseIntM (str " -42x") = some (-42) := by decide
example : parseIntM (str "x") = none := by decide
example : (parseFloatM (str "2.5e1")).isSome = true := by decide
example : (parseFloatM (str ".5")).isSome = true := by decide
example : (parseFloatM (str "1e")).isSome = true := by decide
example : parseFloatM (str "abc") = none := by decide
example : parseFloatM (str ".") = none := by decide
example : parseBoolV (str " On ") = true := by decide

/-- `LoadMount` (lines 182-187): overwrite the three mount fields from
`prefix.*` keys when present; a present-but-malformed number aborts. -/
def loadMount (kv : KvMap) (pre : Str) (m : BBBCameraMount) : Option BBBCameraMount :=
  (getFM kv (pre ++ str ".alturacamaram") m.alturaCamaraM).bind fun a =>
  (getFM kv (pre ++ str ".disthorizarc0m") m.distHorizArc0M).bind fun d =>
  (getFM kv (pre ++ str ".pitchdeg") m.pitchDeg).bind fun p =>
  some { alturaCamaraM := a, distHorizArc0M := d, pitchDeg := p }

/-- One `GetF` step of `LoadParams`: read key `k` with the field's
current value as default, store the result through `set`. -/
def stepF (kv : KvMap) (k : Str) (get : BBBParams → ℚ) (set : ℚ → BBBParams → BBBParams)
    (op : Option BBBParams) : Option BBBParams :=
  op.bind fun p => (getFM kv k (get p)).map fun v => set v p

/-- One `GetI` step of `LoadParams`. -/
def stepI (kv : KvMap) (k : Str) (get : BBBParams → Int) (set : Int → BBBParams → BBBParams)
    (op : Option BBBParams) : Option BBBParams :=
  op.bind fun p => (getIM kv k (get p)).map fun v => set v p

/-- One `GetB` step of `LoadParams`. -/
def stepB (kv : KvMap) (k : Str) (get : BBBParams → Bool) (set : Bool → BBBParams → BBBParams)
    (op : Option BBBParams) : Option BBBParams :=
  op.bind fun p => (getBM kv k (get p)).map fun v => set v p

/-- `LoadParams` (lines 189-236): overwrite each processing field from
`prefix.*` keys when present, in source order; the first present but
malformed numeric key aborts the load. -/
def loadParams (kv : KvMap) (pre : Str) (p : BBBParams) : Option BBBParams :=
  some p
  |> stepF kv (pre ++ str ".minrangem") (fun p => p.minRangeM) (fun v p => { p with minRangeM := v })
  |> stepF kv (pre ++ str ".maxrangem") (fun p => p.maxRangeM) (fun v p => { p with maxRangeM := v })
  |> stepI kv (pre ++ str ".roiminxpct") (fun p => p.roiMinXPct) (fun v p => { p with roiMinXPct := v })
  |> stepI kv (pre ++ str ".roimaxxpct") (fun p => p.roiMaxXPct) (fun v p => { p with roiMaxXPct := v })
  |> stepI kv (pre ++ str ".roiminypct") (fun p => p.roiMinYPct) (fun v p => { p with roiMinYPct := v })
  |> stepI kv (pre ++ str ".roimaxypct") (fun p => p.roiMaxYPct) (fun v p => { p with roiMaxYPct := v })
  |> stepI kv (pre ++ str ".decimationfactor") (fun p => p.decimationFactor) (fun v p => { p with decimationFactor := v })
  |> stepB kv (pre ++ str ".applyspecklefilter") (fun p => p.applySpeckleFilter) (fun v p => { p with applySpeckleFilter := v })
  |> stepI kv (pre ++ str ".maxspecklesize") (fun p => p.maxSpeckleSize) (fun v p => { p with maxSpeckleSize := v })
  |> stepI kv (pre ++ str ".specklethreshold") (fun p => p.speckleThreshold) (fun v p => { p with speckleThreshold := v })
  |> stepB kv (pre ++ str ".applymedian3x3") (fun p => p.applyMedian3x3) (fun v p => { p with applyMedian3x3 := v })
  |> stepF kv (pre ++ str ".voxelleafm") (fun p => p.voxelLeafM) (fun v p => { p with voxelLeafM := v })
  |> stepF kv (pre ++ str ".outlierradiusm") (fun p => p.outlierRadiusM) (fun v p => { p with outlierRadiusM := v })
  |> stepI kv (pre ++ str ".outlierminneighbors") (fun p => p.outlierMinNeighbors) (fun v p => { p with outlierMinNeighbors := v })
  |> stepB kv (pre ++ str ".keeplargestcluster") (fun p => p.keepLargestCluster) (fun v p => { p with keepLargestCluster := v })
  |> stepB kv (pre ++ str ".enablegroundplanefilter") (fun p => p.enableGroundPlaneFilter) (fun v p => { p with enableGroundPlaneFilter := v })
  |> stepF kv (pre ++ str ".groundbandpct") (fun p => p.groundBandPct) (fun v p => { p with groundBandPct := v })
  |> stepF kv (pre ++ str ".groundransacthrm") (fun p => p.groundRansacThrM) (fun v p => { p with groundRansacThrM := v })
  |> stepI kv (pre ++ str ".groundransaciters") (fun p => p.groundRansacIters) (fun v p => { p with groundRansacIters := v })
  |> stepF kv (pre ++ str ".groundcutmarginm") (fun p => p.groundCutMarginM) (fun v p => { p with groundCutMarginM := v })
  |> stepB kv (pre ++ str ".enablefrontdepthclamp") (fun p => p.enableFrontDepthClamp) (fun v p => { p with enableFrontDepthClamp := v })
  |> stepF kv (pre ++ str ".frontfacepercentile") (fun p => p.frontFacePercentile) (fun v p => { p with frontFacePercentile := v })
  |> stepF kv (pre ++ str ".frontdepthbandm") (fun p => p.frontDepthBandM) (fun v p => { p with frontDepthBandM := v })
  |> stepF kv (pre ++ str ".faceslabm") (fun p => p.faceSlabM) (fun v p => { p with faceSlabM := v })
  |> stepF kv (pre ++ str ".dimpercentilelow") (fun p => p.dimPercentileLow) (fun v p => { p with dimPercentileLow := v })
  |> stepF kv (pre ++ str ".dimpercentilehigh") (fun p => p.dimPercentileHigh) (fun v p => { p with dimPercentileHigh := v })
  |> stepI kv (pre ++ str ".colormode") (fun p => p.colorMode) (fun v p => { p with colorMode := v })
  |> stepB kv (pre ++ str ".plybinary") (fun p => p.plyBinary) (fun v p => { p with plyBinary := v })
  |> stepF kv (pre ++ str ".hardmaxzm") (fun p => p.hardMaxZM) (fun v p => { p with hardMaxZM := v })
  |> stepF kv (pre ++ str ".groundminheightm") (fun p => p.groundMinHeightM) (fun v p => { p with groundMinHeightM := v })
  |> stepF kv (pre ++ str ".bultofacepercentile") (fun p => p.bultoFacePercentile) (fun v p => { p with bultoFacePercentile := v })

/-- `LoadControl` (lines 238-242). -/
def loadControl (kv : KvMap) (pre : Str) (c : BBBControl) : Option BBBControl :=
  (getDM kv (pre ++ str ".exposureus") c.exposureUs).bind fun e =>
  (getDM kv (pre ++ str ".gaindb") c.gainDb).bind fun g =>
  some { exposureUs := e, gainDb := g }

/-- The per-slot camera construction of `LoadIni` (lines 351-399):
detect whether any marker key is present, apply defaults, layer stored
overrides, then fix up orientation and name.  The name fix-up (lines
392-396) synthesizes a name whenever the stored name is empty, even when
`autoNameFromSerial` is off. -/
def loadCamera (kv : KvMap) (out : BBBAppConfig) (i : Nat) : Option CameraConfig :=
  let base := str "camera." ++ natStr i
  let hasAny :=
    hasKeyM kv (base ++ str ".serial") || hasKeyM kv (base ++ str ".name") ||
    hasKeyM kv (base ++ str ".enabled") || hasKeyM kv (base ++ str ".orient") ||
    hasKeyM kv (base ++ str ".side")
  let c0 : CameraConfig :=
    { enabled := defaultCameraEnabled
      serial := []
      name := []
      orient := defaultOrientForIndex i
      mount := out.defaultMount
      params := out.defaultParams
      control := out.defaultControl }
  (if hasAny then
      (getBM kv (base ++ str ".enabled") c0.enabled).bind fun enabled =>
      let serial := getStrD kv (base ++ str ".serial") c0.serial
      let name := getStrD kv (base ++ str ".name") c0.name
      let orient0 :=
        match getStrM kv (base ++ str ".orient") with
        | some v => v
        | none => getStrD kv (base ++ str ".side") c0.orient
      (loadMount kv base c0.mount).bind fun mount =>
      (loadParams kv (base ++ str ".params") c0.params).bind fun params =>
      (loadControl kv (base ++ str ".control") c0.control).bind fun control =>
      some { enabled := enabled, serial := serial, name := name,
             orient := canonicalOrient orient0, mount := mount,
             params := params, control := control }
    else
      some { c0 with enabled := true }).bind fun c1 =>
  let c2 := if c1.orient = [] then { c1 with orient := defaultOrientForIndex i } else c1
  let c3 :=
    if c2.name = [] ∧ out.autoNameFromSerial = true then
      { c2 with name := makeAutoName out c2.serial (i + 1) }
    else c2
  let c4 := if c3.name = [] then { c3 with name := makeAutoName out c3.serial (i + 1) } else c3
  some c4

/-- The `for (i < maxCameras)` camera loop of `LoadIni`, building the
slots `i, i+1, …, i+n-1`. -/
def loadCamerasM (kv : KvMap) (out : BBBAppConfig) : Nat → Nat → Option (List CameraConfig)
  | _, 0 => some []
  | i, n + 1 =>
    (loadCamera kv out i).bind fun c =>
    (loadCamerasM kv out (i + 1) n).bind fun rest =>
    some (c :: rest)

/-- `BBBConfig::LoadIni` (lines 325-402) over the parsed key map.  The
caller-provided `init` plays the role of the output parameter `out`
(fields without a stored key keep their incoming values); `none` models
the numeric-conversion exceptions escaping the load. -/
def loadIni (init : BBBAppConfig) (kv : KvMap) : Option BBBAppConfig :=
  let outputDir := getStrD kv (str "general.outputdir") init.paths.outputDir
  let dirPNG := getStrD kv (str "general.dirpng") init.paths.dirPNG
  let dirPGM := getStrD kv (str "general.dirpgm") init.paths.dirPGM
  let dirPLY := getStrD kv (str "general.dirply") init.paths.dirPLY
  (getU64M kv (str "general.capturetimeoutms") init.paths.captureTimeoutMs).bind
    fun captureTimeoutMs =>
  (getIM kv (str "general.maxcameras") init.maxCameras).bind fun maxCameras0 =>
  (getBM kv (str "general.autoadddetectedcameras") init.autoAddDetectedCameras).bind fun autoAdd =>
  (getBM kv (str "general.autonamefromserial") init.autoNameFromSerial).bind fun autoName =>
  let namePrefix := getStrD kv (str "general.nameprefix") init.namePrefix
  let maxCameras := clampMax maxCameras0
  (loadMount kv (str "defaults") init.defaultMount).bind fun defaultMount =>
  (loadParams kv (str "defaults.params") init.defaultParams).bind fun defaultParams =>
  (loadControl kv (str "defaults.control") init.defaultControl).bind fun defaultControl =>
  let out1 : BBBAppConfig :=
    { paths := { outputDir, dirPNG, dirPGM, dirPLY, captureTimeoutMs }
      maxCameras := maxCameras
      autoAddDetectedCameras := autoAdd
      autoNameFromSerial := autoName
      namePrefix := namePrefix
      defaultMount := defaultMount
      defaultParams := defaultParams
      defaultControl := defaultControl
      cameras := [] }
  (loadCamerasM kv out1 0 maxCameras.toNat).bind fun cams =>
  some { out1 with cameras := cams }

/-- All-empty serials predicate used in the reconciliation proofs: no
slot of the sequence is an unassigned (empty-serial) slot. -/
def noEmptySer (cams : List CameraConfig) : Prop :=
  ∀ c ∈ cams, c.serial ≠ []

/-- Pairwise distinctness of the non-empty serials, the invariant the
dedup pass of `EnsureDetectedCameras` enforces. -/
def serialsOk (cams : List CameraConfig) : Prop :=
  cams.Pairwise (fun a b => a.serial ≠ [] → b.serial ≠ [] → a.serial ≠ b.serial)

/-- The non-empty serials of a device sequence, in slot order. -/
def serialsList (cams : List CameraConfig) : List Str :=
  (cams.map (fun c => c.serial)).filter (fun s => decide (s ≠ []))

/-- All-zero mount fixture. -/
def zeroMount : BBBCameraMount := ⟨0, 0, 0⟩

/-- All-zero control fixture. -/
def zeroControl : BBBControl := ⟨0, 0⟩

/-- All-zero params fixture. -/
def zeroParams : BBBParams :=
  ⟨0, 0, 0, 0, 0, 0, 0, false, 0, 0, false, 0, 0, 0, false, false, 0, 0, 0, 0,
   false, 0, 0, 0, 0, 0, 0, false, 0, 0, 0⟩

/-- Baseline test configuration: empty fleet, `maxCameras = 3`,
auto-add on, auto-naming off, empty name prefix, zero defaults. -/
def baseCfg : BBBAppConfig :=
  { paths := ⟨[], [], [], [], 0⟩
    maxCameras := 3
    autoAddDetectedCameras := true
    autoNameFromSerial := false
    namePrefix := []
    defaultMount := zeroMount
    defaultParams := zeroParams
    defaultControl := zeroControl
    cameras := [] }

/-- A camera slot fixture carrying a given serial. -/
def camSer (s : Str) : CameraConfig :=
  { enabled := true, serial := s, name := str "n", orient := str "izq",
    mount := zeroMount, params := zeroParams, control := zeroControl }

theorem list_isEmpty_false {α : Type} (l : List α) : l.isEmpty = false ↔ l ≠ [] := by
  cases l <;> simp

/-- C8: if `autoAddDetectedCameras` is false, `EnsureDetectedCameras`
returns the input configuration completely unchanged (every field,
including `maxCameras` and the device sequence) and reports
`changed = false`, for every detected-serial list. -/
theorem C8_reconcile_noop_when_autoAdd_off (cfg : BBBAppConfig) (detected : List Str)
    (h : cfg.autoAddDetectedCameras = false) :
    ensureDetectedCameras cfg detected = (cfg, false) := by
  simp [ensureDetectedCameras, h]

theorem C8_reconcile_noop_when_autoAdd_off_witness :
    ensureDetectedCameras { baseCfg with autoAddDetectedCameras := false }
      [str "SN1", str "SN1", []]
      = ({ baseCfg with autoAddDetectedCameras := false }, false) :=
  C8_reconcile_noop_when_autoAdd_off _ _ (by rfl)

/-- C9: boolean parsing maps exactly the stored strings `1`, `true`,
`yes`, `on` — compared case-insensitively after trimming — to `true`
and every other string to `false`; in particular `yes`, `On`, `1`
parse to true and `0`, `no`, `""` parse to false. -/
theorem C9_bool_parsing :
    (∀ s : Str, parseBoolV s = true ↔
      (toLowerS (trimS s) = str "1" ∨ toLowerS (trimS s) = str "true" ∨
       toLowerS (trimS s) = str "yes" ∨ toLowerS (trimS s) = str "on")) ∧
    parseBoolV (str "yes") = true ∧ parseBoolV (str "On") = true ∧
    parseBoolV (str "1") = true ∧ parseBoolV (str "0") = false ∧
    parseBoolV (str "no") = false ∧ parseBoolV (str "") = false := by
  refine ⟨fun s => ?_, by decide, by decide, by decide, by decide, by decide, by decide⟩
  simp [parseBoolV, Bool.or_eq_true, decide_eq_true_iff, or_assoc]

/-- C6: the params float comparison `nearlyEqualF` is a relative
tolerance — `|a-b| ≤ 1e-6 · max(1,|a|,|b|)` — while `controlEqual` uses
a plain absolute tolerance `1e-6` on each field; the two rules really
differ: at `a=2`, `b=2+1.5e-6` the relative rule accepts and the
absolute rule rejects. -/
theorem C6_tolerance_rules :
    (∀ a b : ℚ, nearlyEqualF a b = true ↔ |a - b| ≤ 1/1000000 * max 1 (max |a| |b|)) ∧
    (∀ c d : BBBControl, controlEqual c d = true ↔
      (|c.exposureUs - d.exposureUs| ≤ 1/1000000 ∧ |c.gainDb - d.gainDb| ≤ 1/1000000)) ∧
    nearlyEqualF 2 (2 + 3/2000000) = true ∧
    controlEqual ⟨2, 0⟩ ⟨2 + 3/2000000, 0⟩ = false := by
  have habs : |(2:ℚ) - (2 + 3/2000000)| = 3/2000000 := by
    rw [show (2:ℚ) - (2 + 3/2000000) = -(3/2000000) by ring, abs_neg,
      abs_of_nonneg (by norm_num : (0:ℚ) ≤ 3/2000000)]
  refine ⟨fun a b => ?_, fun c d => ?_, ?_, ?_⟩
  · simp [nearlyEqualF, epsTol, decide_eq_true_iff]
  · simp [controlEqual, epsTol, Bool.and_eq_true, decide_eq_true_iff]
  · simp only [nearlyEqualF, epsTol, decide_eq_true_eq]
    rw [habs, abs_of_nonneg (by norm_num : (0:ℚ) ≤ 2),
      abs_of_nonneg (by norm_num : (0:ℚ) ≤ 2 + 3/2000000),
      max_eq_right (by norm_num : (2:ℚ) ≤ 2 + 3/2000000),
      max_eq_right (by norm_num : (1:ℚ) ≤ 2 + 3/2000000)]
    norm_num
  · simp only [controlEqual, epsTol]
    rw [Bool.and_eq_false_iff]
    left
    rw [decide_eq_false_iff_not]
    show ¬(|(2:ℚ) - (2 + 3/2000000)| ≤ 1/1000000)
    rw [habs]
    norm_num

/-- C4 counterexample: the code's canonical orientation tokens are the
Spanish `izq`/`der`/`cenital`, not `left`/`right`/`top`: reconciling the
empty three-slot config with detected serials SN1, SN2 yields slot
orientations `izq`, `der`, `cenital`, and `izq` is not `left`. -/
theorem C4_counterexample_tokens :
    (ensureDetectedCameras baseCfg [str "SN1", str "SN2"]).1.cameras.map (fun c => c.orient)
      = [str "izq", str "der", str "cenital"] ∧ str "izq" ≠ str "left" := by decide

/-- C4 (amended): orientations are canonically the internal tokens
`izq`, `der`, `cenital` (for which `left`, `right`, `top` are accepted
input synonyms), defaulted by slot index — slot 0 gets `izq`, slot 1
gets `der`, any other slot gets `cenital`; reconciling an empty config
with `maxFleetSize = 3` and detected serials SN1, SN2 gives slot 0
serial SN1 with orientation `izq`, slot 1 SN2 with `der`, and slot 2
unassigned with `cenital`. -/
theorem C4_orientation_defaults_amended :
    (defaultOrientForIndex 0 = str "izq" ∧ defaultOrientForIndex 1 = str "der" ∧
     ∀ n : Nat, n ≠ 0 → n ≠ 1 → defaultOrientForIndex n = str "cenital") ∧
    (canonicalOrient (str "left") = str "izq" ∧ canonicalOrient (str "right") = str "der" ∧
     canonicalOrient (str "top") = str "cenital") ∧
    (ensureDetectedCameras baseCfg [str "SN1", str "SN2"]).1.cameras.map
        (fun c => (c.serial, c.orient))
      = [(str "SN1", str "izq"), (str "SN2", str "der"), ([], str "cenital")] := by
  refine ⟨⟨by decide, by decide, fun n h0 h1 => ?_⟩, by decide, by decide⟩
  simp [defaultOrientForIndex, h0, h1]

theorem C4_orientation_defaults_amended_witness :
    defaultOrientForIndex 5 = str "cenital" :=
  C4_orientation_defaults_amended.1.2.2 5 (by decide) (by decide)

/-- C7: in `ParseIni`, a line whose comment-stripped trim contains no
`=` never touches the key-value map (malformed lines are skipped, never
fatal), and a key/value line overwrites the stored value of its
section-qualified lower-cased key (so when the same key occurs on
several lines, the last occurrence wins), as the concrete duplicated
document shows. -/
theorem C7_parse_skip_and_overwrite :
    (∀ st line, findIdxFrom (fun c => c = '=') 0 (strippedLine line) = none →
        (processLine st line).kv = st.kv) ∧
    (∀ st line eq, strippedLine line ≠ [] → ¬ isHeaderLine (strippedLine line) →
        findIdxFrom (fun c => c = '=') 0 (strippedLine line) = some eq →
        (processLine st line).kv
          = kvSet st.kv (fullKeyAt st.sect (strippedLine line) eq)
              (trimS ((strippedLine line).drop (eq + 1)))) ∧
    (parseLines [str "[Sec]", str "k=1", str "nonsense line", str "k = 2"]).kv (str "sec.k")
      = some (str "2") := by
  refine ⟨fun st line h => ?_, fun st line eq h0 h1 h2 => ?_, by decide⟩
  · by_cases h0 : strippedLine line = []
    · simp [processLine, h0]
    · by_cases h1 : isHeaderLine (strippedLine line)
      · simp [processLine, h0, h1]
      · simp [processLine, h0, h1, h]
  · simp [processLine, h0, h1, h2]

theorem C7_parse_skip_and_overwrite_witness :
    (processLine ⟨str "g", emptyKv⟩ (str "bad line ; comment")).kv = emptyKv :=
  C7_parse_skip_and_overwrite.1 ⟨str "g", emptyKv⟩ (str "bad line ; comment") (by decide)

theorem mapFrom_length {α : Type} (f : Nat → α → α) :
    ∀ (i : Nat) (l : List α), (mapFrom f i l).length = l.length := by
  intro i l
  induction l generalizing i with
  | nil => rfl
  | cons a l ih => simp [mapFrom, ih]

theorem padLoop_length (cfg1 : BBBAppConfig) (maxC : Nat) :
    ∀ (fuel : Nat) (st : List CameraConfig × Bool), maxC - st.1.length ≤ fuel →
      (padLoop cfg1 maxC fuel st).1.length = max maxC st.1.length := by
  intro fuel
  induction fuel with
  | zero =>
    intro st h
    simp only [padLoop]
    omega
  | succ n ih =>
    intro st h
    by_cases hlt : st.1.length < maxC
    · have h2 : maxC - (st.1 ++ [padCam cfg1 st.1.length], true).1.length ≤ n := by
        simp; omega
      simp only [padLoop, if_pos hlt]
      rw [ih _ h2]
      simp
      omega
    · simp only [padLoop, if_neg hlt]
      omega

theorem clampMax_of_valid {m : Int} (h1 : 1 ≤ m) (h3 : m ≤ 3) : clampMax m = m := by
  simp only [clampMax]
  split_ifs <;> omega

theorem clampMax_bounds (m : Int) : 1 ≤ clampMax m ∧ clampMax m ≤ 3 := by
  simp only [clampMax]
  split_ifs <;> omega

theorem clampMax_idem (m : Int) : clampMax (clampMax m) = clampMax m :=
  clampMax_of_valid (clampMax_bounds m).1 (clampMax_bounds m).2

theorem padTrunc_length (cfg1 : BBBAppConfig) (maxC : Nat) (st : List CameraConfig × Bool) :
    (if maxC < (padLoop cfg1 maxC maxC st).1.length
     then ((padLoop cfg1 maxC maxC st).1.take maxC, true)
     else padLoop cfg1 maxC maxC st).1.length = maxC := by
  have h3 := padLoop_length cfg1 maxC maxC st (by omega)
  by_cases h : maxC < (padLoop cfg1 maxC maxC st).1.length
  · simp only [if_pos h]
    simp [List.length_take]
    omega
  · simp only [if_neg h]
    omega

theorem ensure_cameras_length (cfg : BBBAppConfig) (det : List Str)
    (ha : cfg.autoAddDetectedCameras = true) :
    (ensureDetectedCameras cfg det).1.cameras.length = (clampMax cfg.maxCameras).toNat := by
  have hne : ¬(cfg.autoAddDetectedCameras = false) := by simp [ha]
  simp only [ensureDetectedCameras]
  rw [if_neg hne]
  exact padTrunc_length _ _ _

theorem savePadN_length (cfg : BBBAppConfig) :
    ∀ (n : Nat) (cams : List CameraConfig), (savePadN cfg n cams).length = cams.length + n := by
  intro n
  induction n with
  | zero => intro cams; simp [savePadN]
  | succ k ih =>
    intro cams
    simp only [savePadN]
    rw [ih]
    simp
    omega

theorem savePrepare_length (cfg : BBBAppConfig) :
    (savePrepare cfg).cameras.length = (clampMax cfg.maxCameras).toNat := by
  simp only [savePrepare]
  by_cases h : cfg.cameras.length < (clampMax cfg.maxCameras).toNat
  · rw [if_pos h]
    have hp := savePadN_length { cfg with maxCameras := clampMax cfg.maxCameras }
      ((clampMax cfg.maxCameras).toNat - cfg.cameras.length) cfg.cameras
    split_ifs with h2
    · rw [List.length_take, hp]
      omega
    · rw [hp]
      omega
  · rw [if_neg h]
    split_ifs with h2
    · rw [List.length_take]
      omega
    · omega

/-- C1 counterexample: with `autoAddDetectedCameras = false` the
reconcile operation leaves a 0-slot sequence untouched, so the device
sequence does not reach the valid `maxFleetSize = 2`. -/
theorem C1_counterexample_autoAdd_off :
    ({ baseCfg with autoAddDetectedCameras := false, maxCameras := 2 } : BBBAppConfig).maxCameras = 2 ∧
    (ensureDetectedCameras { baseCfg with autoAddDetectedCameras := false, maxCameras := 2 }
        []).1.cameras.length = 0 ∧
    ¬((ensureDetectedCameras { baseCfg with autoAddDetectedCameras := false, maxCameras := 2 }
        []).1.cameras.length = 2) := by decide

/-- C1 (amended): for every valid `maxFleetSize ∈ {1,2,3}`, the device
sequence has size exactly `maxFleetSize` after `EnsureDetectedCameras`
provided `autoAddDetectedCameras` is true (when it is false the
operation returns its input untouched), and unconditionally after the
save-side pad/truncate of `SaveIni`. -/
theorem C1_slot_count_amended (cfg : BBBAppConfig) (detected : List Str)
    (h1 : 1 ≤ cfg.maxCameras) (h3 : cfg.maxCameras ≤ 3) :
    (cfg.autoAddDetectedCameras = true →
      ((ensureDetectedCameras cfg detected).1.cameras.length : Int) = cfg.maxCameras) ∧
    ((savePrepare cfg).cameras.length : Int) = cfg.maxCameras := by
  have hc : clampMax cfg.maxCameras = cfg.maxCameras := clampMax_of_valid h1 h3
  constructor
  · intro ha
    rw [ensure_cameras_length cfg detected ha, hc]
    exact Int.toNat_of_nonneg (by omega)
  · rw [savePrepare_length, hc]
    exact Int.toNat_of_nonneg (by omega)

theorem C1_slot_count_amended_witness :
    (1 ≤ baseCfg.maxCameras ∧ baseCfg.maxCameras ≤ 3) ∧
    ((ensureDetectedCameras baseCfg [str "A"]).1.cameras.length : Int) = baseCfg.maxCameras ∧
    ((savePrepare baseCfg).cameras.length : Int) = baseCfg.maxCameras :=
  ⟨⟨by decide, by decide⟩,
   (C1_slot_count_amended baseCfg [str "A"] (by decide) (by decide)).1 rfl,
   (C1_slot_count_amended baseCfg [str "A"] (by decide) (by decide)).2⟩

theorem mem_mapFrom {α : Type} (f : Nat → α → α) :
    ∀ (i : Nat) (l : List α) (a : α), a ∈ mapFrom f i l →
      ∃ j b, i ≤ j ∧ b ∈ l ∧ a = f j b := by
  intro i l
  induction l generalizing i with
  | nil => intro a h; simp [mapFrom] at h
  | cons c rest ih =>
    intro a h
    simp only [mapFrom, List.mem_cons] at h
    rcases h with h | h
    · exact ⟨i, c, Nat.le_refl i, List.mem_cons_self c rest, h⟩
    · obtain ⟨j, b, hij, hb, he⟩ := ih (i + 1) a h
      exact ⟨j, b, by omega, List.mem_cons_of_mem c hb, he⟩

theorem mapFrom_id {α : Type} (f : Nat → α → α) :
    ∀ (i : Nat) (l : List α), (∀ j b, b ∈ l → f j b = b) → mapFrom f i l = l := by
  intro i l
  induction l generalizing i with
  | nil => intro _; rfl
  | cons c rest ih =>
    intro h
    simp only [mapFrom]
    rw [h i c (List.mem_cons_self c rest), ih (i + 1) (fun j b hb => h j b (List.mem_cons_of_mem c hb))]

theorem anyFrom_false {α : Type} (p : Nat → α → Bool) :
    ∀ (i : Nat) (l : List α), (∀ j b, b ∈ l → p j b = false) → anyFrom p i l = false := by
  intro i l
  induction l generalizing i with
  | nil => intro _; rfl
  | cons c rest ih =>
    intro h
    simp only [anyFrom, Bool.or_eq_false_iff]
    exact ⟨h i c (List.mem_cons_self c rest),
      ih (i + 1) (fun j b hb => h j b (List.mem_cons_of_mem c hb))⟩

theorem mapFrom_getElem? {α : Type} (f : Nat → α → α) :
    ∀ (i : Nat) (l : List α) (j : Nat),
      (mapFrom f i l)[j]? = (l[j]?).map (f (i + j)) := by
  intro i l
  induction l generalizing i with
  | nil => intro j; simp [mapFrom]
  | cons c rest ih =>
    intro j
    cases j with
    | zero => simp [mapFrom]
    | succ k =>
      simp only [mapFrom, List.getElem?_cons_succ]
      rw [ih (i + 1) k]
      have : i + 1 + k = i + (k + 1) := by omega
      rw [this]

theorem hasSerial_iff (cams : List CameraConfig) (s : Str) :
    hasSerial cams s = true ↔ ∃ c ∈ cams, c.serial ≠ [] ∧ c.serial = s := by
  simp [hasSerial, List.any_eq_true, list_isEmpty_false, decide_eq_true_iff]

theorem hasSerial_false_iff (cams : List CameraConfig) (s : Str) :
    hasSerial cams s = false ↔ ∀ c ∈ cams, c.serial = [] ∨ c.serial ≠ s := by
  rw [← Bool.not_eq_true, hasSerial_iff]
  push_neg
  constructor
  · intro h c hc
    by_cases he : c.serial = []
    · exact Or.inl he
    · exact Or.inr (h c hc he)
  · intro h c hc he
    rcases h c hc with h' | h'
    · exact absurd h' he
    · exact h'

theorem hasSerial_getElem (cams : List CameraConfig) (s : Str) :
    hasSerial cams s = true ↔
      ∃ (j : Nat) (c : CameraConfig), cams[j]? = some c ∧ c.serial ≠ [] ∧ c.serial = s := by
  rw [hasSerial_iff]
  constructor
  · rintro ⟨c, hc, h⟩
    obtain ⟨j, hj⟩ := List.mem_iff_getElem?.1 hc
    exact ⟨j, c, hj, h⟩
  · rintro ⟨j, c, hj, h⟩
    exact ⟨c, List.mem_iff_getElem?.2 ⟨j, hj⟩, h⟩

theorem findIdxFrom_none {α : Type} (p : α → Bool) :
    ∀ (i : Nat) (l : List α), findIdxFrom p i l = none ↔ ∀ b ∈ l, p b = false := by
  intro i l
  induction l generalizing i with
  | nil => simp [findIdxFrom]
  | cons c rest ih =>
    by_cases h : p c
    · simp [findIdxFrom, h]
    · simp only [findIdxFrom, h, if_false, Bool.false_eq_true]
      rw [ih (i + 1)]
      simp [h]

theorem findIdxFrom_some {α : Type} (p : α → Bool) :
    ∀ (i : Nat) (l : List α) (k : Nat), findIdxFrom p i l = some k →
      i ≤ k ∧ ∃ c, l[k - i]? = some c ∧ p c = true := by
  intro i l
  induction l generalizing i with
  | nil => intro k h; simp [findIdxFrom] at h
  | cons c rest ih =>
    intro k h
    simp only [findIdxFrom] at h
    by_cases hp : p c
    · rw [if_pos hp] at h
      injection h with h
      refine ⟨by omega, c, ?_, hp⟩
      have h0 : k - i = 0 := by omega
      rw [h0]
      simp
    · rw [if_neg hp] at h
      obtain ⟨hik, d, hd, hpd⟩ := ih (i + 1) k h
      refine ⟨by omega, d, ?_, hpd⟩
      have hk : k - i = (k - (i + 1)) + 1 := by omega
      rw [hk, List.getElem?_cons_succ]
      exact hd

theorem uniqueNonEmpty_ne_nil :
    ∀ (l acc : List Str), (∀ t ∈ acc, t ≠ []) → ∀ s ∈ uniqueNonEmpty l acc, s ≠ [] := by
  intro l
  induction l with
  | nil => intro acc hacc s hs; exact hacc s hs
  | cons a rest ih =>
    intro acc hacc s hs
    simp only [uniqueNonEmpty] at hs
    by_cases h : a = [] ∨ a ∈ acc
    · rw [if_pos h] at hs
      exact ih acc hacc s hs
    · rw [if_neg h] at hs
      push_neg at h
      refine ih (acc ++ [a]) ?_ s hs
      intro t ht
      rcases List.mem_append.1 ht with ht | ht
      · exact hacc t ht
      · simp at ht
        subst ht
        exact h.1

theorem dedupRest_serials (cfg : BBBAppConfig) (s : Str) (i : Nat) (rest : List CameraConfig) :
    ∀ b ∈ mapFrom
        (fun j cj => if cj.serial = s ∧ cj.serial ≠ [] then dedupClear cfg j cj else cj) i rest,
      b.serial = [] ∨ (b.serial ≠ s ∧ ∃ a ∈ rest, b.serial = a.serial) := by
  intro b hb
  obtain ⟨j, a, hij, ha, he⟩ := mem_mapFrom _ i rest b hb
  by_cases hc : a.serial = s ∧ a.serial ≠ []
  · subst he
    rw [if_pos hc]
    exact Or.inl rfl
  · subst he
    rw [if_neg hc]
    by_cases ha2 : a.serial = []
    · exact Or.inl ha2
    · right
      push_neg at hc
      exact ⟨fun heq => ha2 (hc heq), a, ha, rfl⟩

theorem dedupPass_mem_serials (cfg : BBBAppConfig) :
    ∀ (fuel i : Nat) (cams : List CameraConfig) (b : CameraConfig),
      b ∈ (dedupPass cfg fuel i cams).1 → b.serial = [] ∨ ∃ a ∈ cams, b.serial = a.serial := by
  intro fuel
  induction fuel with
  | zero =>
    intro i cams b hb
    simp only [dedupPass] at hb
    exact Or.inr ⟨b, hb, rfl⟩
  | succ n ih =>
    intro i cams b hb
    cases cams with
    | nil => simp [dedupPass] at hb
    | cons c rest =>
      simp only [dedupPass] at hb
      by_cases hc : c.serial = []
      · rw [if_pos hc] at hb
        rcases List.mem_cons.1 hb with hb | hb
        · exact Or.inr ⟨c, List.mem_cons_self c rest, by rw [hb]⟩
        · rcases ih (i + 1) rest b hb with h | ⟨a, ha, he⟩
          · exact Or.inl h
          · exact Or.inr ⟨a, List.mem_cons_of_mem c ha, he⟩
      · rw [if_neg hc] at hb
        rcases List.mem_cons.1 hb with hb | hb
        · exact Or.inr ⟨c, List.mem_cons_self c rest, by rw [hb]⟩
        · rcases ih (i + 1) _ b hb with h | ⟨a, ha, he⟩
          · exact Or.inl h
          · rcases dedupRest_serials cfg c.serial (i + 1) rest a ha with h2 | ⟨_, a2, ha2, he2⟩
            · exact Or.inl (he.trans h2)
            · exact Or.inr ⟨a2, List.mem_cons_of_mem c ha2, he.trans he2⟩

theorem dedupPass_serialsOk (cfg : BBBAppConfig) :
    ∀ (fuel i : Nat) (cams : List CameraConfig), cams.length ≤ fuel →
      serialsOk (dedupPass cfg fuel i cams).1 := by
  intro fuel
  induction fuel with
  | zero =>
    intro i cams h
    have : cams = [] := List.length_eq_zero.1 (by omega)
    subst this
    simp [dedupPass, serialsOk]
  | succ n ih =>
    intro i cams h
    cases cams with
    | nil => simp [dedupPass, serialsOk]
    | cons c rest =>
      simp only [dedupPass]
      by_cases hc : c.serial = []
      · rw [if_pos hc]
        rw [serialsOk, List.pairwise_cons]
        refine ⟨fun b _ hcne _ => absurd hc hcne, ?_⟩
        exact ih (i + 1) rest (by simp at h; omega)
      · rw [if_neg hc]
        rw [serialsOk, List.pairwise_cons]
        constructor
        · intro b hb _ hbne
          rcases dedupPass_mem_serials cfg n (i + 1) _ b hb with h2 | ⟨a, ha, he⟩
          · exact absurd h2 hbne
          · rcases dedupRest_serials cfg c.serial (i + 1) rest a ha with h3 | ⟨h3, _⟩
            · exact absurd (he.trans h3) hbne
            · rw [he]
              exact fun heq => h3 heq.symm
        · refine ih (i + 1) _ ?_
          rw [mapFrom_length]
          simp at h
          omega

theorem dedupPass_id (cfg : BBBAppConfig) :
    ∀ (fuel i : Nat) (cams : List CameraConfig), serialsOk cams → cams.length ≤ fuel →
      dedupPass cfg fuel i cams = (cams, false) := by
  intro fuel
  induction fuel with
  | zero =>
    intro i cams _ h
    simp only [dedupPass]
  | succ n ih =>
    intro i cams h hlen
    cases cams with
    | nil => simp [dedupPass]
    | cons c rest =>
      obtain ⟨hhead, htail⟩ := List.pairwise_cons.1 h
      simp only [dedupPass]
      by_cases hc : c.serial = []
      · rw [if_pos hc, ih (i + 1) rest htail (by simp at hlen; omega)]
      · rw [if_neg hc]
        have hhit : anyFrom
            (fun _ cj => decide (cj.serial = c.serial) && !(cj.serial.isEmpty)) (i + 1) rest
            = false := by
          refine anyFrom_false _ _ _ (fun j b hb => ?_)
          by_cases hb2 : b.serial = []
          · simp [hb2]
          · have h3 : c.serial ≠ b.serial := hhead b hb hc hb2
            have h4 : ¬(b.serial = c.serial) := fun heq => h3 heq.symm
            simp [h4]
        have hrest1 : mapFrom
            (fun j cj => if cj.serial = c.serial ∧ cj.serial ≠ [] then dedupClear cfg j cj
             else cj) (i + 1) rest = rest := by
          refine mapFrom_id _ _ _ (fun j b hb => ?_)
          rw [if_neg]
          rintro ⟨he, hne⟩
          exact hhead b hb hc hne he.symm
        rw [hhit, hrest1, ih (i + 1) rest htail (by simp at hlen; omega)]
        rfl

theorem pairwise_mapFrom_update (cfg : BBBAppConfig) (s : Str) (i : Nat) (_hs : s ≠ []) :
    ∀ (k : Nat) (l : List CameraConfig), serialsOk l →
      (∀ b ∈ l, b.serial = [] ∨ b.serial ≠ s) →
      serialsOk (mapFrom (fun j c => if j = i then fillSlot cfg s i c else c) k l) := by
  intro k l
  induction l generalizing k with
  | nil => intro _ _; simp [mapFrom, serialsOk]
  | cons c rest ih =>
    intro h hall
    obtain ⟨hhead, htail⟩ := List.pairwise_cons.1 h
    simp only [mapFrom]
    rw [serialsOk, List.pairwise_cons]
    constructor
    · intro b hb
      obtain ⟨j, a, hkj, ha, he⟩ := mem_mapFrom _ (k + 1) rest b hb
      by_cases hk : k = i
      · rw [if_pos hk]
        have hji : j ≠ i := by omega
        rw [he, if_neg hji]
        intro _ hane heq
        have hsa : (fillSlot cfg s i c).serial = s := rfl
        rw [hsa] at heq
        rcases hall a (List.mem_cons_of_mem c ha) with h2 | h2
        · exact hane h2
        · exact h2 heq.symm
      · rw [if_neg hk]
        by_cases hji : j = i
        · rw [he, if_pos hji]
          intro hcne _ heq
          have hsa : (fillSlot cfg s i a).serial = s := rfl
          rw [hsa] at heq
          rcases hall c (List.mem_cons_self c rest) with h2 | h2
          · exact hcne h2
          · exact h2 heq
        · rw [he, if_neg hji]
          exact hhead a ha
    · exact ih (k + 1) htail (fun b hb => hall b (List.mem_cons_of_mem c hb))

theorem fillStep_serialsOk (cfg : BBBAppConfig) (maxC : Nat) (st : List CameraConfig × Bool)
    (s : Str) (hs : s ≠ []) (h : serialsOk st.1) : serialsOk (fillStep cfg maxC st s).1 := by
  unfold fillStep
  by_cases hh : hasSerial st.1 s = true
  · rw [if_pos hh]
    exact h
  · rw [if_neg hh]
    have hall : ∀ b ∈ st.1, b.serial = [] ∨ b.serial ≠ s :=
      (hasSerial_false_iff _ _).1 (Bool.not_eq_true _ ▸ hh)
    cases hfind : findIdxFrom (fun c => c.serial.isEmpty) 0 (st.1.take maxC) with
    | some i =>
      simp only [hfind]
      exact pairwise_mapFrom_update cfg s i hs 0 st.1 h hall
    | none =>
      simp only [hfind]
      by_cases hlen : st.1.length < maxC
      · rw [if_pos hlen]
        show serialsOk (st.1 ++ [appendCam cfg s st.1.length])
        rw [serialsOk, List.pairwise_append]
        refine ⟨h, List.pairwise_singleton _ _, ?_⟩
        intro a ha b hb
        simp only [List.mem_singleton] at hb
        subst hb
        intro hane _ heq
        have hsb : (appendCam cfg s st.1.length).serial = s := rfl
        rw [hsb] at heq
        rcases hall a ha with h2 | h2
        · exact hane h2
        · exact h2 heq
      · rw [if_neg hlen]
        exact h

theorem padLoop_serialsOk (cfg1 : BBBAppConfig) (maxC : Nat) :
    ∀ (fuel : Nat) (st : List CameraConfig × Bool), serialsOk st.1 →
      serialsOk (padLoop cfg1 maxC fuel st).1 := by
  intro fuel
  induction fuel with
  | zero => intro st h; simp only [padLoop]; exact h
  | succ n ih =>
    intro st h
    by_cases hlt : st.1.length < maxC
    · simp only [padLoop, if_pos hlt]
      refine ih _ ?_
      show serialsOk (st.1 ++ [padCam cfg1 st.1.length])
      rw [serialsOk, List.pairwise_append]
      refine ⟨h, List.pairwise_singleton _ _, ?_⟩
      intro a _ b hb
      simp only [List.mem_singleton] at hb
      subst hb
      intro _ hbne
      exact absurd rfl hbne
    · simp only [padLoop, if_neg hlt]
      exact h

theorem serialsOk_take (n : Nat) (l : List CameraConfig) (h : serialsOk l) :
    serialsOk (l.take n) :=
  List.Pairwise.sublist (List.take_sublist n l) h

theorem foldl_fillStep_serialsOk (cfg1 : BBBAppConfig) (maxC : Nat) :
    ∀ (uniq : List Str) (st : List CameraConfig × Bool), (∀ s ∈ uniq, s ≠ []) →
      serialsOk st.1 → serialsOk (uniq.foldl (fillStep cfg1 maxC) st).1 := by
  intro uniq
  induction uniq with
  | nil => intro st _ h; exact h
  | cons s rest ih =>
    intro st hall h
    simp only [List.foldl_cons]
    exact ih _ (fun t ht => hall t (List.mem_cons_of_mem s ht))
      (fillStep_serialsOk cfg1 maxC st s (hall s (List.mem_cons_self s rest)) h)

theorem padTrunc_serialsOk (cfg1 : BBBAppConfig) (maxC : Nat) (st : List CameraConfig × Bool)
    (h : serialsOk st.1) :
    serialsOk (if maxC < (padLoop cfg1 maxC maxC st).1.length
               then ((padLoop cfg1 maxC maxC st).1.take maxC, true)
               else padLoop cfg1 maxC maxC st).1 := by
  by_cases hc : maxC < (padLoop cfg1 maxC maxC st).1.length
  · rw [if_pos hc]
    exact serialsOk_take _ _ (padLoop_serialsOk _ _ _ _ h)
  · rw [if_neg hc]
    exact padLoop_serialsOk _ _ _ _ h

theorem ensure_serialsOk (cfg : BBBAppConfig) (det : List Str)
    (ha : cfg.autoAddDetectedCameras = true) :
    serialsOk (ensureDetectedCameras cfg det).1.cameras := by
  have hne : ¬(cfg.autoAddDetectedCameras = false) := by simp [ha]
  simp only [ensureDetectedCameras]
  rw [if_neg hne]
  exact padTrunc_serialsOk _ _ _
    (foldl_fillStep_serialsOk _ _ _ _ (uniqueNonEmpty_ne_nil det [] (by simp))
      (dedupPass_serialsOk _ _ _ _ (Nat.le_refl _)))

theorem serialsOk_nodup : ∀ (cams : List CameraConfig), serialsOk cams →
    (serialsList cams).Nodup := by
  intro cams
  induction cams with
  | nil => intro _; simp [serialsList]
  | cons c rest ih =>
    intro h
    obtain ⟨hhead, htail⟩ := List.pairwise_cons.1 h
    simp only [serialsList, List.map_cons, List.filter_cons]
    by_cases hc : c.serial = []
    · rw [if_neg]
      · exact ih htail
      · simp [hc]
    · rw [if_pos]
      · rw [List.nodup_cons]
        refine ⟨?_, ih htail⟩
        intro hmem
        obtain ⟨hmem2, _⟩ := List.mem_filter.1 hmem
        obtain ⟨b, hb, he⟩ := List.mem_map.1 hmem2
        exact hhead b hb hc (he ▸ hc) he.symm
      · simp [hc]

/-- C2 counterexample: with `autoAddDetectedCameras = false` the
reconcile operation returns its input untouched, so a configuration
holding the serial A in two slots still has duplicate non-empty serials
after `EnsureDetectedCameras`. -/
theorem C2_counterexample_autoAdd_off :
    ¬(serialsList (ensureDetectedCameras
        { baseCfg with autoAddDetectedCameras := false,
                       cameras := [camSer (str "A"), camSer (str "A")] }
        []).1.cameras).Nodup := by decide

/-- C2 (amended): provided `autoAddDetectedCameras` is true (when it is
false the operation returns its input untouched), after
`EnsureDetectedCameras` the non-empty serials of the device sequence
contain no duplicates, for every input config and detected list
(duplicates and empty strings allowed); duplicates are cleared
actively, with the earlier-indexed slot keeping the serial, as the
concrete duplicated-A scenario shows. -/
theorem C2_unique_serials_amended :
    (∀ (cfg : BBBAppConfig) (det : List Str), cfg.autoAddDetectedCameras = true →
        (serialsList (ensureDetectedCameras cfg det).1.cameras).Nodup) ∧
    (ensureDetectedCameras { baseCfg with cameras := [camSer (str "A"), camSer (str "A")] }
        []).1.cameras.map (fun c => c.serial) = [str "A", [], []] ∧
    (ensureDetectedCameras { baseCfg with cameras := [camSer (str "A"), camSer (str "A")] }
        []).2 = true :=
  ⟨fun cfg det ha => serialsOk_nodup _ (ensure_serialsOk cfg det ha), by decide, by decide⟩

theorem C2_unique_serials_amended_witness :
    (serialsList (ensureDetectedCameras baseCfg [str "A", str "A", []]).1.cameras).Nodup :=
  C2_unique_serials_amended.1 baseCfg [str "A", str "A", []] rfl

theorem camera_mem_camSections (dp : BBBParams) (dc : BBBControl) :
    ∀ (cams : List CameraConfig) (k i : Nat),
      (SectionTag.camera i ∈ camSectionsFrom dp dc k cams) ↔ (k ≤ i ∧ i - k < cams.length) := by
  intro cams
  induction cams with
  | nil => intro k i; simp [camSectionsFrom]
  | cons c rest ih =>
    intro k i
    simp only [camSectionsFrom, List.mem_append, List.mem_singleton]
    split_ifs <;> simp [ih (k + 1) i] <;> omega

theorem cameraParams_mem_camSections (dp : BBBParams) (dc : BBBControl) :
    ∀ (cams : List CameraConfig) (k i : Nat),
      (SectionTag.cameraParams i ∈ camSectionsFrom dp dc k cams) ↔
      (∃ c, cams[i - k]? = some c ∧ k ≤ i ∧ paramsEqual c.params dp = false) := by
  intro cams
  induction cams with
  | nil => intro k i; simp [camSectionsFrom]
  | cons c rest ih =>
    intro k i
    simp only [camSectionsFrom, List.mem_append, List.mem_singleton]
    by_cases hik : i = k
    · subst hik
      simp only [Nat.sub_self, List.getElem?_cons_zero]
      constructor
      · rintro (((h | h) | h) | h)
        · exact absurd h (by simp)
        · by_cases hpe : paramsEqual c.params dp = true
          · rw [if_pos hpe] at h
            simp at h
          · exact ⟨c, rfl, Nat.le_refl i, Bool.not_eq_true _ ▸ hpe⟩
        · by_cases hce : controlEqual c.control dc = true
          · rw [if_pos hce] at h
            simp at h
          · rw [if_neg hce] at h
            simp at h
        · rw [ih (i + 1) i] at h
          obtain ⟨d, _, hle, _⟩ := h
          omega
      · rintro ⟨d, hd, _, hpe⟩
        injection hd with hd
        subst hd
        left; left; right
        rw [if_neg (by rw [hpe]; exact Bool.false_ne_true)]
        simp
    · constructor
      · rintro (((h | h) | h) | h)
        · exact absurd h (by simp)
        · by_cases hpe : paramsEqual c.params dp = true
          · rw [if_pos hpe] at h
            simp at h
          · rw [if_neg hpe] at h
            simp at h
            exact absurd h hik
        · by_cases hce : controlEqual c.control dc = true
          · rw [if_pos hce] at h
            simp at h
          · rw [if_neg hce] at h
            simp at h
        · rw [ih (k + 1) i] at h
          obtain ⟨d, hd, hle, hpe⟩ := h
          refine ⟨d, ?_, by omega, hpe⟩
          have hsub : i - k = (i - (k + 1)) + 1 := by omega
          rw [hsub, List.getElem?_cons_succ]
          exact hd
      · rintro ⟨d, hd, hle, hpe⟩
        right
        rw [ih (k + 1) i]
        refine ⟨d, ?_, by omega, hpe⟩
        have hsub : i - k = (i - (k + 1)) + 1 := by omega
        rw [hsub, List.getElem?_cons_succ] at hd
        exact hd

theorem cameraControl_mem_camSections (dp : BBBParams) (dc : BBBControl) :
    ∀ (cams : List CameraConfig) (k i : Nat),
      (SectionTag.cameraControl i ∈ camSectionsFrom dp dc k cams) ↔
      (∃ c, cams[i - k]? = some c ∧ k ≤ i ∧ controlEqual c.control dc = false) := by
  intro cams
  induction cams with
  | nil => intro k i; simp [camSectionsFrom]
  | cons c rest ih =>
    intro k i
    simp only [camSectionsFrom, List.mem_append, List.mem_singleton]
    by_cases hik : i = k
    · subst hik
      simp only [Nat.sub_self, List.getElem?_cons_zero]
      constructor
      · rintro (((h | h) | h) | h)
        · exact absurd h (by simp)
        · by_cases hpe : paramsEqual c.params dp = true
          · rw [if_pos hpe] at h
            simp at h
          · rw [if_neg hpe] at h
            simp at h
        · by_cases hce : controlEqual c.control dc = true
          · rw [if_pos hce] at h
            simp at h
          · exact ⟨c, rfl, Nat.le_refl i, Bool.not_eq_true _ ▸ hce⟩
        · rw [ih (i + 1) i] at h
          obtain ⟨d, _, hle, _⟩ := h
          omega
      · rintro ⟨d, hd, _, hce⟩
        injection hd with hd
        subst hd
        left; right
        rw [if_neg (by rw [hce]; exact Bool.false_ne_true)]
        simp
    · constructor
      · rintro (((h | h) | h) | h)
        · exact absurd h (by simp)
        · by_cases hpe : paramsEqual c.params dp = true
          · rw [if_pos hpe] at h
            simp at h
          · rw [if_neg hpe] at h
            simp at h
        · by_cases hce : controlEqual c.control dc = true
          · rw [if_pos hce] at h
            simp at h
          · rw [if_neg hce] at h
            simp at h
            exact absurd h hik
        · rw [ih (k + 1) i] at h
          obtain ⟨d, hd, hle, hce⟩ := h
          refine ⟨d, ?_, by omega, hce⟩
          have hsub : i - k = (i - (k + 1)) + 1 := by omega
          rw [hsub, List.getElem?_cons_succ]
          exact hd
      · rintro ⟨d, hd, hle, hce⟩
        right
        rw [ih (k + 1) i]
        refine ⟨d, ?_, by omega, hce⟩
        have hsub : i - k = (i - (k + 1)) + 1 := by omega
        rw [hsub, List.getElem?_cons_succ] at hd
        exact hd

/-- C5: `SaveIni` emits the identity+mount section of every slot of the
padded/truncated sequence unconditionally, a device-specific params
section exactly when the slot's params differ from the fleet default
params under the tolerance equality, and likewise a device-specific
control section exactly when the slot's control differs from the
default control. -/
theorem C5_save_diff_sections (cfg : BBBAppConfig) (i : Nat) (c : CameraConfig)
    (h : (savePrepare cfg).cameras[i]? = some c) :
    SectionTag.camera i ∈ saveSections cfg ∧
    ((SectionTag.cameraParams i ∈ saveSections cfg) ↔
      paramsEqual c.params cfg.defaultParams = false) ∧
    ((SectionTag.cameraControl i ∈ saveSections cfg) ↔
      controlEqual c.control cfg.defaultControl = false) := by
  have hlen : i < (savePrepare cfg).cameras.length := by
    by_contra hge
    rw [List.getElem?_eq_none (by omega)] at h
    exact Option.noConfusion h
  refine ⟨?_, ?_, ?_⟩
  · simp only [saveSections, List.mem_append]
    right
    rw [camera_mem_camSections]
    omega
  · simp only [saveSections, List.mem_append]
    rw [cameraParams_mem_camSections]
    constructor
    · rintro (h' | ⟨d, hd, _, hpe⟩)
      · simp at h'
      · rw [Nat.sub_zero, h] at hd
        injection hd with hd
        subst hd
        exact hpe
    · intro hpe
      right
      refine ⟨c, ?_, Nat.zero_le i, hpe⟩
      rw [Nat.sub_zero]
      exact h
  · simp only [saveSections, List.mem_append]
    rw [cameraControl_mem_camSections]
    constructor
    · rintro (h' | ⟨d, hd, _, hce⟩)
      · simp at h'
      · rw [Nat.sub_zero, h] at hd
        injection hd with hd
        subst hd
        exact hce
    · intro hce
      right
      refine ⟨c, ?_, Nat.zero_le i, hce⟩
      rw [Nat.sub_zero]
      exact h

theorem C5_save_diff_sections_witness :
    SectionTag.cameraParams 0 ∈ saveSections
      { baseCfg with
        maxCameras := 1
        cameras := [{ (camSer (str "X")) with params := { zeroParams with roiMinXPct := 35 } }] } := by
  have h := C5_save_diff_sections
    { baseCfg with
      maxCameras := 1
      cameras := [{ (camSer (str "X")) with params := { zeroParams with roiMinXPct := 35 } }] }
    0 { (camSer (str "X")) with params := { zeroParams with roiMinXPct := 35 } } (by decide)
  refine h.2.1.mpr ?_
  show paramsEqual { zeroParams with roiMinXPct := 35 } zeroParams = false
  simp [paramsEqual, zeroParams]

theorem makeAutoName_ne_nil (cfg : BBBAppConfig) (s : Str) (n : Nat) :
    makeAutoName cfg s n ≠ [] := by
  unfold makeAutoName
  split_ifs with h
  · intro hc
    rcases List.append_eq_nil.1 hc with ⟨_, h2⟩
    exact h h2
  · intro hc
    rcases List.append_eq_nil.1 hc with ⟨h1, _⟩
    rcases List.append_eq_nil.1 h1 with ⟨_, h2⟩
    exact absurd h2 (by decide)

theorem fixup_name_ne_nil (out : BBBAppConfig) (i : Nat) (c3 : CameraConfig) :
    (if c3.name = [] then { c3 with name := makeAutoName out c3.serial (i + 1) } else c3).name
      ≠ [] := by
  split_ifs with hn
  · exact makeAutoName_ne_nil _ _ _
  · exact hn

theorem loadCamera_name_ne_nil (kv : KvMap) (out : BBBAppConfig) (i : Nat) (c : CameraConfig)
    (h : loadCamera kv out i = some c) : c.name ≠ [] := by
  simp only [loadCamera, Option.bind_eq_some] at h
  obtain ⟨c1, _, h2⟩ := h
  simp only [Option.some_inj] at h2
  rw [← h2]
  exact fixup_name_ne_nil out i _

theorem loadCamerasM_names (kv : KvMap) (out : BBBAppConfig) :
    ∀ (n i : Nat) (l : List CameraConfig), loadCamerasM kv out i n = some l →
      ∀ c ∈ l, c.name ≠ [] := by
  intro n
  induction n with
  | zero =>
    intro i l h c hc
    simp only [loadCamerasM] at h
    injection h with h
    subst h
    simp at hc
  | succ m ih =>
    intro i l h c hc
    simp only [loadCamerasM, Option.bind_eq_some] at h
    obtain ⟨d, hd, rest, hrest, hfin⟩ := h
    simp only [Option.some_inj] at hfin
    subst hfin
    rcases List.mem_cons.1 hc with hc | hc
    · subst hc
      exact loadCamera_name_ne_nil kv out i c hd
    · exact ih (i + 1) rest hrest c hc

/-- C10: after every successful `LoadIni`, every device record's name is
non-empty — a record whose stored name is empty gets the synthesized
name (`namePrefix + serial`, or `namePrefix + "UNASSIGNED" + slot+1`
when the serial is empty) even when `autoNameFromSerial` is false,
because of the unconditional second fix-up at lines 395-396. -/
theorem C10_load_names_nonempty (init : BBBAppConfig) (kv : KvMap) (cfg : BBBAppConfig)
    (h : loadIni init kv = some cfg) : ∀ c ∈ cfg.cameras, c.name ≠ [] := by
  simp only [loadIni, Option.bind_eq_some] at h
  obtain ⟨a1, _, a2, _, a3, _, a4, _, a5, _, a6, _, a7, _, cams, hcams, hfin⟩ := h
  simp only [Option.some_inj] at hfin
  subst hfin
  exact loadCamerasM_names kv _ _ _ cams hcams

theorem C10_load_names_nonempty_witness :
    loadIni baseCfg emptyKv = some { baseCfg with cameras := [
      ⟨true, [], str "UNASSIGNED1", str "izq", zeroMount, zeroParams, zeroControl⟩,
      ⟨true, [], str "UNASSIGNED2", str "der", zeroMount, zeroParams, zeroControl⟩,
      ⟨true, [], str "UNASSIGNED3", str "cenital", zeroMount, zeroParams, zeroControl⟩] } ∧
    (⟨true, [], str "UNASSIGNED1", str "izq", zeroMount, zeroParams, zeroControl⟩
        : CameraConfig).name ≠ [] :=
  ⟨by decide,
   C10_load_names_nonempty baseCfg emptyKv
     { baseCfg with cameras := [
       ⟨true, [], str "UNASSIGNED1", str "izq", zeroMount, zeroParams, zeroControl⟩,
       ⟨true, [], str "UNASSIGNED2", str "der", zeroMount, zeroParams, zeroControl⟩,
       ⟨true, [], str "UNASSIGNED3", str "cenital", zeroMount, zeroParams, zeroControl⟩] }
     (by decide)
     ⟨true, [], str "UNASSIGNED1", str "izq", zeroMount, zeroParams, zeroControl⟩
     (by decide)⟩

theorem list_isEmpty_true {α : Type} (l : List α) : l.isEmpty = true ↔ l = [] := by
  cases l <;> simp

theorem dedupPass_length (cfg : BBBAppConfig) :
    ∀ (fuel i : Nat) (cams : List CameraConfig),
      (dedupPass cfg fuel i cams).1.length = cams.length := by
  intro fuel
  induction fuel with
  | zero => intro i cams; simp [dedupPass]
  | succ n ih =>
    intro i cams
    cases cams with
    | nil => simp [dedupPass]
    | cons c rest =>
      simp only [dedupPass]
      by_cases hc : c.serial = []
      · rw [if_pos hc]
        simp [ih (i + 1) rest]
      · rw [if_neg hc]
        simp [ih (i + 1), mapFrom_length]

theorem padLoop_id (cfg1 : BBBAppConfig) (maxC : Nat) (fuel : Nat)
    (st : List CameraConfig × Bool) (h : ¬(st.1.length < maxC)) :
    padLoop cfg1 maxC fuel st = st := by
  cases fuel with
  | zero => rfl
  | succ n => simp only [padLoop, if_neg h]

theorem hasSerial_append (l l2 : List CameraConfig) (s : Str) :
    hasSerial (l ++ l2) s = (hasSerial l s || hasSerial l2 s) := by
  simp [hasSerial, List.any_append]

theorem padLoop_hasSerial (cfg1 : BBBAppConfig) (maxC : Nat) (s : Str) :
    ∀ (fuel : Nat) (st : List CameraConfig × Bool), hasSerial st.1 s = true →
      hasSerial (padLoop cfg1 maxC fuel st).1 s = true := by
  intro fuel
  induction fuel with
  | zero => intro st h; simpa [padLoop] using h
  | succ n ih =>
    intro st h
    by_cases hlt : st.1.length < maxC
    · simp only [padLoop, if_pos hlt]
      refine ih _ ?_
      simp only [hasSerial_append, h, Bool.true_or]
    · simp only [padLoop, if_neg hlt]
      exact h

theorem getElem?_take_some {α : Type} :
    ∀ (l : List α) (n i : Nat) (a : α), (l.take n)[i]? = some a → l[i]? = some a := by
  intro l
  induction l with
  | nil => intro n i a h; simp at h
  | cons c rest ih =>
    intro n i a h
    cases n with
    | zero => simp at h
    | succ m =>
      cases i with
      | zero => simpa using h
      | succ k =>
        simp only [List.take_succ_cons, List.getElem?_cons_succ] at h ⊢
        exact ih m k a h

theorem fillStep_length_le (cfg1 : BBBAppConfig) (maxC : Nat) (st : List CameraConfig × Bool)
    (s : Str) (h : st.1.length ≤ maxC) : (fillStep cfg1 maxC st s).1.length ≤ maxC := by
  unfold fillStep
  by_cases hh : hasSerial st.1 s = true
  · rw [if_pos hh]
    exact h
  · rw [if_neg hh]
    cases hfind : findIdxFrom (fun c => c.serial.isEmpty) 0 (st.1.take maxC) with
    | some i =>
      simp only [hfind, mapFrom_length]
      exact h
    | none =>
      simp only [hfind]
      by_cases hlen : st.1.length < maxC
      · rw [if_pos hlen]
        simp
        omega
      · rw [if_neg hlen]
        exact h

theorem fillStep_id_of_hasSerial (cfg1 : BBBAppConfig) (maxC : Nat)
    (st : List CameraConfig × Bool) (s : Str) (h : hasSerial st.1 s = true) :
    fillStep cfg1 maxC st s = st := by
  unfold fillStep
  rw [if_pos h]

theorem fillStep_id_of_full (cfg1 : BBBAppConfig) (maxC : Nat) (st : List CameraConfig × Bool)
    (s : Str) (hne : noEmptySer st.1) (hfull : ¬(st.1.length < maxC)) :
    fillStep cfg1 maxC st s = st := by
  unfold fillStep
  by_cases hh : hasSerial st.1 s = true
  · rw [if_pos hh]
  · rw [if_neg hh]
    have hfind : findIdxFrom (fun c => c.serial.isEmpty) 0 (st.1.take maxC) = none := by
      rw [findIdxFrom_none]
      intro b hb
      rw [list_isEmpty_false]
      exact hne b (List.mem_of_mem_take hb)
    simp only [hfind]
    rw [if_neg hfull]

theorem fillStep_hasSerial (cfg1 : BBBAppConfig) (maxC : Nat) (st : List CameraConfig × Bool)
    (s s0 : Str) (h : hasSerial st.1 s0 = true) :
    hasSerial (fillStep cfg1 maxC st s).1 s0 = true := by
  unfold fillStep
  by_cases hh : hasSerial st.1 s = true
  · rw [if_pos hh]
    exact h
  · rw [if_neg hh]
    cases hfind : findIdxFrom (fun c => c.serial.isEmpty) 0 (st.1.take maxC) with
    | some i =>
      simp only [hfind]
      obtain ⟨_, c, hc, hce⟩ := findIdxFrom_some _ 0 _ i hfind
      rw [Nat.sub_zero] at hc
      have hci : st.1[i]? = some c := getElem?_take_some _ _ _ _ hc
      have hcnil : c.serial = [] := (list_isEmpty_true _).1 hce
      obtain ⟨j, cj, hj, hjne, hjeq⟩ := (hasSerial_getElem _ _).1 h
      have hji : j ≠ i := by
        intro he
        subst he
        rw [hj] at hci
        injection hci with hci
        rw [hci] at hjne
        exact hjne hcnil
      rw [hasSerial_getElem]
      refine ⟨j, cj, ?_, hjne, hjeq⟩
      rw [mapFrom_getElem?, hj]
      simp [hji]
    | none =>
      simp only [hfind]
      by_cases hlen : st.1.length < maxC
      · rw [if_pos hlen]
        simp only [hasSerial_append, h, Bool.true_or]
      · rw [if_neg hlen]
        exact h

theorem fillStep_establishes (cfg1 : BBBAppConfig) (maxC : Nat) (st : List CameraConfig × Bool)
    (s : Str) (hs : s ≠ []) (hlen : st.1.length ≤ maxC) :
    hasSerial (fillStep cfg1 maxC st s).1 s = true ∨
      (noEmptySer (fillStep cfg1 maxC st s).1 ∧ (fillStep cfg1 maxC st s).1.length = maxC) := by
  unfold fillStep
  by_cases hh : hasSerial st.1 s = true
  · rw [if_pos hh]
    exact Or.inl hh
  · rw [if_neg hh]
    cases hfind : findIdxFrom (fun c => c.serial.isEmpty) 0 (st.1.take maxC) with
    | some i =>
      simp only [hfind]
      left
      obtain ⟨_, c, hc, _⟩ := findIdxFrom_some _ 0 _ i hfind
      rw [Nat.sub_zero] at hc
      have hci : st.1[i]? = some c := getElem?_take_some _ _ _ _ hc
      rw [hasSerial_getElem]
      refine ⟨i, fillSlot cfg1 s i c, ?_, ?_, ?_⟩
      · rw [mapFrom_getElem?, hci]
        simp
      · show s ≠ []
        exact hs
      · rfl
    | none =>
      simp only [hfind]
      by_cases hl : st.1.length < maxC
      · rw [if_pos hl]
        left
        rw [hasSerial_append]
        have : hasSerial [appendCam cfg1 s st.1.length] s = true := by
          rw [hasSerial_getElem]
          exact ⟨0, appendCam cfg1 s st.1.length, rfl, hs, rfl⟩
        rw [this, Bool.or_true]
      · rw [if_neg hl]
        right
        have htake : st.1.take maxC = st.1 := List.take_of_length_le hlen
        rw [htake] at hfind
        refine ⟨fun c hc => ?_, by omega⟩
        rw [← list_isEmpty_false]
        exact (findIdxFrom_none _ 0 _).1 hfind c hc

theorem foldl_fill_hasSerial (cfg1 : BBBAppConfig) (maxC : Nat) (s0 : Str) :
    ∀ (uniq : List Str) (st : List CameraConfig × Bool), hasSerial st.1 s0 = true →
      hasSerial ((uniq.foldl (fillStep cfg1 maxC) st)).1 s0 = true := by
  intro uniq
  induction uniq with
  | nil => intro st h; exact h
  | cons s rest ih =>
    intro st h
    simp only [List.foldl_cons]
    exact ih _ (fillStep_hasSerial cfg1 maxC st s s0 h)

theorem foldl_fill_id_sat (cfg1 : BBBAppConfig) (maxC : Nat) :
    ∀ (uniq : List Str) (st : List CameraConfig × Bool),
      (∀ s ∈ uniq, hasSerial st.1 s = true ∨ (noEmptySer st.1 ∧ ¬(st.1.length < maxC))) →
      uniq.foldl (fillStep cfg1 maxC) st = st := by
  intro uniq
  induction uniq with
  | nil => intro st _; rfl
  | cons s rest ih =>
    intro st hsat
    have hstep : fillStep cfg1 maxC st s = st := by
      rcases hsat s (List.mem_cons_self s rest) with h | ⟨h1, h2⟩
      · exact fillStep_id_of_hasSerial cfg1 maxC st s h
      · exact fillStep_id_of_full cfg1 maxC st s h1 h2
    simp only [List.foldl_cons, hstep]
    exact ih st (fun t ht => hsat t (List.mem_cons_of_mem s ht))

theorem foldl_fill_post (cfg1 : BBBAppConfig) (maxC : Nat) :
    ∀ (uniq : List Str) (st : List CameraConfig × Bool), (∀ s ∈ uniq, s ≠ []) →
      st.1.length ≤ maxC →
      ((uniq.foldl (fillStep cfg1 maxC) st).1.length ≤ maxC ∧
       ∀ s ∈ uniq, hasSerial (uniq.foldl (fillStep cfg1 maxC) st).1 s = true ∨
         (noEmptySer (uniq.foldl (fillStep cfg1 maxC) st).1 ∧
          (uniq.foldl (fillStep cfg1 maxC) st).1.length = maxC)) := by
  intro uniq
  induction uniq with
  | nil => intro st _ hlen; exact ⟨hlen, by simp⟩
  | cons s rest ih =>
    intro st hne hlen
    have hs : s ≠ [] := hne s (List.mem_cons_self s rest)
    have hlen1 : (fillStep cfg1 maxC st s).1.length ≤ maxC := fillStep_length_le cfg1 maxC st s hlen
    obtain ⟨hlen2, hJ⟩ := ih (fillStep cfg1 maxC st s)
      (fun t ht => hne t (List.mem_cons_of_mem s ht)) hlen1
    simp only [List.foldl_cons]
    refine ⟨hlen2, fun t ht => ?_⟩
    rcases List.mem_cons.1 ht with ht | ht
    · subst ht
      rcases fillStep_establishes cfg1 maxC st t hs hlen with h | ⟨h1, h2⟩
      · exact Or.inl (foldl_fill_hasSerial cfg1 maxC t rest _ h)
      · have hid : rest.foldl (fillStep cfg1 maxC) (fillStep cfg1 maxC st t) =
            fillStep cfg1 maxC st t :=
          foldl_fill_id_sat cfg1 maxC rest _ (fun u _ => Or.inr ⟨h1, by omega⟩)
        rw [hid]
        exact Or.inr ⟨h1, h2⟩
    · exact hJ t ht

theorem pipeline_post (cfg1 : BBBAppConfig) (maxC : Nat) (uniq : List Str)
    (st1 : List CameraConfig × Bool) (hulen : st1.1.length ≤ maxC)
    (hu : ∀ s ∈ uniq, s ≠ []) :
    ∀ s ∈ uniq,
      hasSerial
        (if maxC < (padLoop cfg1 maxC maxC (uniq.foldl (fillStep cfg1 maxC) st1)).1.length
         then ((padLoop cfg1 maxC maxC (uniq.foldl (fillStep cfg1 maxC) st1)).1.take maxC, true)
         else padLoop cfg1 maxC maxC (uniq.foldl (fillStep cfg1 maxC) st1)).1 s = true ∨
      noEmptySer
        (if maxC < (padLoop cfg1 maxC maxC (uniq.foldl (fillStep cfg1 maxC) st1)).1.length
         then ((padLoop cfg1 maxC maxC (uniq.foldl (fillStep cfg1 maxC) st1)).1.take maxC, true)
         else padLoop cfg1 maxC maxC (uniq.foldl (fillStep cfg1 maxC) st1)).1 := by
  intro s hs
  obtain ⟨hlen2, hJ⟩ := foldl_fill_post cfg1 maxC uniq st1 hu hulen
  have hlen3 : (padLoop cfg1 maxC maxC (uniq.foldl (fillStep cfg1 maxC) st1)).1.length
      = max maxC (uniq.foldl (fillStep cfg1 maxC) st1).1.length :=
    padLoop_length cfg1 maxC maxC _ (by omega)
  rw [if_neg (by omega)]
  rcases hJ s hs with h | ⟨h1, _⟩
  · exact Or.inl (padLoop_hasSerial cfg1 maxC s maxC _ h)
  · have hid : padLoop cfg1 maxC maxC (uniq.foldl (fillStep cfg1 maxC) st1)
        = uniq.foldl (fillStep cfg1 maxC) st1 :=
      padLoop_id cfg1 maxC maxC _ (by omega)
    rw [hid]
    exact Or.inr h1

theorem ensure_post (cfg : BBBAppConfig) (det : List Str)
    (ha : cfg.autoAddDetectedCameras = true)
    (hlen : cfg.cameras.length ≤ (clampMax cfg.maxCameras).toNat) :
    ∀ s ∈ uniqueNonEmpty det [],
      hasSerial (ensureDetectedCameras cfg det).1.cameras s = true ∨
      noEmptySer (ensureDetectedCameras cfg det).1.cameras := by
  have hne : ¬(cfg.autoAddDetectedCameras = false) := by simp [ha]
  simp only [ensureDetectedCameras]
  rw [if_neg hne]
  exact pipeline_post _ _ _ _ (by rw [dedupPass_length]; exact hlen)
    (uniqueNonEmpty_ne_nil det [] (by simp))

theorem ensure_maxCameras (cfg : BBBAppConfig) (det : List Str)
    (ha : cfg.autoAddDetectedCameras = true) :
    (ensureDetectedCameras cfg det).1.maxCameras = clampMax cfg.maxCameras := by
  have hne : ¬(cfg.autoAddDetectedCameras = false) := by simp [ha]
  simp only [ensureDetectedCameras]
  rw [if_neg hne]

theorem ensure_autoAdd (cfg : BBBAppConfig) (det : List Str)
    (ha : cfg.autoAddDetectedCameras = true) :
    (ensureDetectedCameras cfg det).1.autoAddDetectedCameras = cfg.autoAddDetectedCameras := by
  have hne : ¬(cfg.autoAddDetectedCameras = false) := by simp [ha]
  simp only [ensureDetectedCameras]
  rw [if_neg hne]

theorem ensure_fixpoint (cfg' : BBBAppConfig) (det : List Str)
    (ha : cfg'.autoAddDetectedCameras = true)
    (hclamp : clampMax cfg'.maxCameras = cfg'.maxCameras)
    (hlen : cfg'.cameras.length = (clampMax cfg'.maxCameras).toNat)
    (hok : serialsOk cfg'.cameras)
    (hsat : ∀ s ∈ uniqueNonEmpty det [],
      hasSerial cfg'.cameras s = true ∨ noEmptySer cfg'.cameras) :
    ensureDetectedCameras cfg' det = (cfg', false) := by
  have hne : ¬(cfg'.autoAddDetectedCameras = false) := by simp [ha]
  simp only [ensureDetectedCameras]
  rw [if_neg hne]
  rw [dedupPass_id _ _ _ _ hok (Nat.le_refl _)]
  have hfull : ¬((cfg'.cameras, false).1.length < (clampMax cfg'.maxCameras).toNat) := by
    simp only
    omega
  rw [foldl_fill_id_sat _ _ _ _ (fun s hs => by
    rcases hsat s hs with h | h
    · exact Or.inl h
    · exact Or.inr ⟨h, hfull⟩)]
  rw [padLoop_id _ _ _ _ hfull]
  rw [if_neg (by simp only; omega)]
  rw [hclamp]

theorem C3_counterexample_oversized :
    (ensureDetectedCameras
        (ensureDetectedCameras
          { baseCfg with
            maxCameras := 1
            cameras := [camSer [], camSer (str "B")] } [str "B"]).1
        [str "B"]).2 = true ∧
    (ensureDetectedCameras
        (ensureDetectedCameras
          { baseCfg with
            maxCameras := 1
            cameras := [camSer [], camSer (str "B")] } [str "B"]).1
        [str "B"]).1 ≠
      (ensureDetectedCameras
        { baseCfg with
          maxCameras := 1
          cameras := [camSer [], camSer (str "B")] } [str "B"]).1 := by decide

/-- C3 (amended): provided the input device sequence does not exceed
the clamped `maxCameras` (as holds for any config produced by Load,
Save-side normalization or a previous Reconcile), running
`EnsureDetectedCameras` twice with the same detected list returns
`changed = false` and the identical configuration on the second call.
On an oversized sequence the truncation of the first call can drop a
detected serial, which the second call then re-places. -/
theorem C3_idempotence_amended (cfg : BBBAppConfig) (det : List Str)
    (hlen : cfg.cameras.length ≤ (clampMax cfg.maxCameras).toNat) :
    ensureDetectedCameras (ensureDetectedCameras cfg det).1 det
      = ((ensureDetectedCameras cfg det).1, false) := by
  by_cases ha : cfg.autoAddDetectedCameras = true
  · have hmax := ensure_maxCameras cfg det ha
    apply ensure_fixpoint
    · rw [ensure_autoAdd cfg det ha]
      exact ha
    · rw [hmax, clampMax_idem]
    · rw [hmax, clampMax_idem, ensure_cameras_length cfg det ha]
    · exact ensure_serialsOk cfg det ha
    · exact ensure_post cfg det ha hlen
  · have ha' : cfg.autoAddDetectedCameras = false := by
      cases h2 : cfg.autoAddDetectedCameras
      · rfl
      · exact absurd h2 ha
    have h1 : ensureDetectedCameras cfg det = (cfg, false) := by
      simp [ensureDetectedCameras, ha']
    rw [h1]
    exact h1

theorem C3_idempotence_amended_witness :
    ensureDetectedCameras (ensureDetectedCameras baseCfg [str "SN1"]).1 [str "SN1"]
      = ((ensureDetectedCameras baseCfg [str "SN1"]).1, false) :=
  C3_idempotence_amended baseCfg [str "SN1"] (by decide)
